import Mathlib

/-!
Shallow embedding of the chord / key detection pipeline of
`backend/chord_detector.py` (class `ChordProgressionDetector`), together with
proofs settling the frozen claims about it.

Conventions used throughout:
* Python floats are idealized as exact real numbers `ℝ` (or `ℚ` where the
  source only does field arithmetic on literals and durations).
* `sklearn.preprocessing.normalize(v, axis=1)` (L2) maps the zero vector to
  the zero vector; Lean's total division `x / 0 = 0` models this directly in
  `normalizeVec`.
* Python's `sorted(..., key=..., reverse=True)` is a stable descending sort;
  it is modelled by `List.insertionSort` with a relation that is `true` on
  ties, which is stable in the same sense (see the stability example in
  Mathlib's `Data/List/Sort.lean`).
* Python dicts iterated with `.items()` are modelled as association lists in
  insertion order.
-/

namespace ChordDetector

/-! ### Static tables

`_get_chord_templates`: root pitch classes and the interval structure of every
chord type, copied verbatim from the source. -/

def rootsList : List (String × ℕ) :=
  [("C", 0), ("C#", 1), ("D", 2), ("D#", 3), ("E", 4), ("F", 5),
   ("F#", 6), ("G", 7), ("G#", 8), ("A", 9), ("A#", 10), ("B", 11)]

def chordTypesList : List (String × List ℕ) :=
  [("maj", [0, 4, 7]),
   ("min", [0, 3, 7]),
   ("dim", [0, 3, 6]),
   ("aug", [0, 4, 8]),
   ("sus2", [0, 2, 7]),
   ("sus4", [0, 5, 7]),
   ("maj/3", [4, 7, 12]),
   ("min/3", [3, 7, 12]),
   ("dim/3", [3, 6, 12]),
   ("aug/3", [4, 8, 12]),
   ("sus2/2", [2, 7, 12]),
   ("sus4/4", [5, 7, 12]),
   ("maj/5", [7, 12, 16]),
   ("min/5", [7, 12, 15]),
   ("dim/5", [6, 12, 15]),
   ("aug/5", [8, 12, 16]),
   ("sus2/5", [7, 12, 14]),
   ("sus4/5", [7, 12, 17]),
   ("7", [0, 4, 7, 10]),
   ("maj7", [0, 4, 7, 11]),
   ("min7", [0, 3, 7, 10]),
   ("dim7", [0, 3, 6, 9]),
   ("hdim7", [0, 3, 6, 10]),
   ("minmaj7", [0, 3, 7, 11]),
   ("aug7", [0, 4, 8, 10]),
   ("maj7#5", [0, 4, 8, 11]),
   ("7/3", [4, 7, 10, 12]),
   ("maj7/3", [4, 7, 11, 12]),
   ("min7/3", [3, 7, 10, 12]),
   ("dim7/3", [3, 6, 9, 12]),
   ("hdim7/3", [3, 6, 10, 12]),
   ("minmaj7/3", [3, 7, 11, 12]),
   ("aug7/3", [4, 8, 10, 12]),
   ("maj7#5/3", [4, 8, 11, 12]),
   ("7/5", [7, 10, 12, 16]),
   ("maj7/5", [7, 11, 12, 16]),
   ("min7/5", [7, 10, 12, 15]),
   ("dim7/5", [6, 9, 12, 15]),
   ("hdim7/5", [6, 10, 12, 15]),
   ("minmaj7/5", [7, 11, 12, 15]),
   ("aug7/5", [8, 10, 12, 16]),
   ("maj7#5/5", [8, 11, 12, 16]),
   ("7/b7", [10, 12, 16, 19]),
   ("maj7/7", [11, 12, 16, 19]),
   ("min7/b7", [10, 12, 15, 19]),
   ("dim7/bb7", [9, 12, 15, 18]),
   ("hdim7/b7", [10, 12, 15, 18]),
   ("minmaj7/7", [11, 12, 15, 19]),
   ("aug7/b7", [10, 12, 16, 20]),
   ("maj7#5/7", [11, 12, 16, 20]),
   ("maj7drop2", [0, 7, 11, 16]),
   ("min7drop2", [0, 7, 10, 15]),
   ("7drop2", [0, 7, 10, 16]),
   ("maj7drop3", [0, 4, 11, 19]),
   ("min7drop3", [0, 3, 10, 19]),
   ("7drop3", [0, 4, 10, 19]),
   ("maj7spread", [0, 7, 11, 19]),
   ("min7spread", [0, 7, 10, 19]),
   ("7spread", [0, 7, 10, 19]),
   ("quartal", [0, 5, 10]),
   ("quartal7", [0, 5, 10, 15]),
   ("quartal9", [0, 5, 10, 15, 20]),
   ("cluster", [0, 1, 2]),
   ("cluster7", [0, 1, 2, 3]),
   ("cluster9", [0, 1, 2, 3, 4]),
   ("shell7", [0, 7, 10]),
   ("shellmaj7", [0, 7, 11]),
   ("shellmin7", [0, 7, 10]),
   ("ustmaj7", [0, 4, 7, 11, 14, 18]),
   ("ustmin7", [0, 3, 7, 10, 14, 17]),
   ("ust7", [0, 4, 7, 10, 14, 18]),
   ("maj7open", [0, 7, 11, 19]),
   ("min7open", [0, 7, 10, 19]),
   ("7open", [0, 7, 10, 19]),
   ("maj7close", [0, 4, 7, 11]),
   ("min7close", [0, 3, 7, 10]),
   ("7close", [0, 4, 7, 10]),
   ("rootless7", [4, 7, 10, 14]),
   ("rootlessmaj7", [4, 7, 11, 14]),
   ("rootlessmin7", [3, 7, 10, 14]),
   ("kb7", [0, 4, 7, 10, 14, 17]),
   ("kbmaj7", [0, 4, 7, 11, 14, 17]),
   ("kbmin7", [0, 3, 7, 10, 14, 17]),
   ("be7", [0, 4, 7, 10, 14, 18]),
   ("bemaj7", [0, 4, 7, 11, 14, 18]),
   ("bemin7", [0, 3, 7, 10, 14, 18]),
   ("mt7", [0, 4, 7, 10, 14, 18, 21]),
   ("mtmaj7", [0, 4, 7, 11, 14, 18, 21]),
   ("mtmin7", [0, 3, 7, 10, 14, 18, 21]),
   ("hh7", [0, 4, 7, 10, 14, 17, 21]),
   ("hhmaj7", [0, 4, 7, 11, 14, 17, 21]),
   ("hhmin7", [0, 3, 7, 10, 14, 17, 21]),
   ("cc7", [0, 4, 7, 10, 14, 18, 21]),
   ("ccmaj7", [0, 4, 7, 11, 14, 18, 21]),
   ("ccmin7", [0, 3, 7, 10, 14, 18, 21]),
   ("lydian", [0, 4, 7, 11, 14, 18]),
   ("mixolydian", [0, 4, 7, 10, 14, 17]),
   ("dorian", [0, 3, 7, 10, 14, 17]),
   ("phrygian", [0, 3, 7, 10, 13, 17]),
   ("locrian", [0, 3, 6, 10, 13, 17]),
   ("mystic", [0, 4, 6, 7, 11]),
   ("petrushka", [0, 4, 7, 12, 16, 19]),
   ("hendrix", [0, 4, 7, 10, 15]),
   ("mu", [0, 4, 7, 11, 14]),
   ("so", [0, 4, 7, 10, 14, 17])]

/-- The 12-entry 0/1 pitch-class vector a template starts from: the source
allocates `np.zeros(12)` and sets `template[(root_idx + interval) % 12] = 1`
for each interval of the chord type. -/
def rawTemplate (rootIdx : ℕ) (intervals : List ℕ) : List ℕ :=
  List.ofFn (fun p : Fin 12 =>
    if intervals.any (fun iv => (rootIdx + iv) % 12 == (p : ℕ)) then 1 else 0)

/-- The un-normalized template bank, keyed `root:type`, in the source's dict
insertion order (roots outer loop, chord types inner loop). -/
def rawTemplates : List (String × List ℕ) :=
  rootsList.flatMap (fun ri =>
    chordTypesList.map (fun ct => (ri.1 ++ ":" ++ ct.1, rawTemplate ri.2 ct.2)))

/-- `_init_chord_complexity`: complexity rank per chord type. -/
def CHORD_COMPLEXITY : List (String × ℕ) :=
  [("maj", 1), ("min", 1), ("dim", 1), ("aug", 1), ("sus2", 1), ("sus4", 1),
   ("maj/3", 2), ("min/3", 2), ("dim/3", 2), ("aug/3", 2), ("sus2/2", 2), ("sus4/4", 2),
   ("maj/5", 2), ("min/5", 2), ("dim/5", 2), ("aug/5", 2), ("sus2/5", 2), ("sus4/5", 2),
   ("7", 2), ("maj7", 2), ("min7", 2), ("dim7", 2), ("hdim7", 2), ("minmaj7", 2),
   ("aug7", 2), ("maj7#5", 2),
   ("7/3", 3), ("maj7/3", 3), ("min7/3", 3), ("dim7/3", 3), ("hdim7/3", 3),
   ("minmaj7/3", 3), ("aug7/3", 3), ("maj7#5/3", 3),
   ("7/5", 3), ("maj7/5", 3), ("min7/5", 3), ("dim7/5", 3), ("hdim7/5", 3),
   ("minmaj7/5", 3), ("aug7/5", 3), ("maj7#5/5", 3),
   ("7/b7", 3), ("maj7/7", 3), ("min7/b7", 3), ("dim7/bb7", 3), ("hdim7/b7", 3),
   ("minmaj7/7", 3), ("aug7/b7", 3), ("maj7#5/7", 3),
   ("maj7drop2", 3), ("min7drop2", 3), ("7drop2", 3), ("maj7drop3", 3),
   ("min7drop3", 3), ("7drop3", 3),
   ("maj7spread", 3), ("min7spread", 3), ("7spread", 3),
   ("quartal", 2), ("quartal7", 3), ("quartal9", 4),
   ("cluster", 2), ("cluster7", 3), ("cluster9", 4),
   ("shell7", 2), ("shellmaj7", 2), ("shellmin7", 2),
   ("ustmaj7", 4), ("ustmin7", 4), ("ust7", 4),
   ("maj7open", 3), ("min7open", 3), ("7open", 3),
   ("maj7close", 2), ("min7close", 2), ("7close", 2),
   ("rootless7", 3), ("rootlessmaj7", 3), ("rootlessmin7", 3),
   ("kb7", 4), ("kbmaj7", 4), ("kbmin7", 4),
   ("be7", 4), ("bemaj7", 4), ("bemin7", 4),
   ("mt7", 5), ("mtmaj7", 5), ("mtmin7", 5),
   ("hh7", 5), ("hhmaj7", 5), ("hhmin7", 5),
   ("cc7", 5), ("ccmaj7", 5), ("ccmin7", 5),
   ("lydian", 4), ("mixolydian", 4), ("dorian", 4), ("phrygian", 4), ("locrian", 4),
   ("mystic", 3), ("petrushka", 4), ("hendrix", 3), ("mu", 3), ("so", 4)]

/-! ### Configuration (`self.config` defaults) -/

def detection_threshold : ℚ := 3/4
def min_duration_frames : ℕ := 15
def window_size : ℕ := 9
def similarity_threshold : ℚ := 1/5
def bass_weight : ℚ := 6/5
def harmonic_weight : ℚ := 21/20
def min_chord_duration : ℚ := 4/5
def max_chord_gap : ℚ := 3/10
def cluster_threshold : ℚ := 17/20
def min_progression_duration : ℚ := 2
def chroma_sr : ℚ := 22050
def hop_length : ℚ := 512

/-! ### `convert_frames_to_time` -/

/-- A time-based chord segment, i.e. the dict
`{'chord': ..., 'start_time': ..., 'end_time': ..., 'duration': ...}`. -/
structure Segment where
  chord : String
  start_time : ℚ
  end_time : ℚ
  duration : ℚ
deriving DecidableEq, Repr

/-- The loop body of `convert_frames_to_time`, carrying the running
`current_time` cursor (`duration_seconds = duration * hop_length / sr`). -/
def convertFramesAux (sr hop : ℚ) : ℚ → List (String × ℕ) → List Segment
  | _, [] => []
  | t, (chord, dur) :: rest =>
      ⟨chord, t, t + (dur : ℚ) * hop / sr, (dur : ℚ) * hop / sr⟩ ::
        convertFramesAux sr hop (t + (dur : ℚ) * hop / sr) rest

/-- `convert_frames_to_time(chord_sequence, sr, hop_length)`: converts a
frame-based `(chord, frame_count)` run list into time-based segments,
accumulating a running time cursor that starts at 0. -/
def convertFramesToTime (chordSequence : List (String × ℕ)) (sr hop : ℚ) : List Segment :=
  convertFramesAux sr hop 0 chordSequence

theorem convertFramesAux_length (sr hop : ℚ) (t : ℚ) (l : List (String × ℕ)) :
    (convertFramesAux sr hop t l).length = l.length := by
  induction l generalizing t with
  | nil => rfl
  | cons x rest ih => cases x; simp [convertFramesAux, ih]

theorem convertFramesAux_duration (sr hop : ℚ) (t : ℚ) (l : List (String × ℕ)) :
    ∀ s ∈ convertFramesAux sr hop t l, s.duration = s.end_time - s.start_time := by
  induction l generalizing t with
  | nil => intro s hs; simp [convertFramesAux] at hs
  | cons x rest ih =>
      cases x with
      | mk c d =>
        intro s hs
        simp only [convertFramesAux, List.mem_cons] at hs
        rcases hs with h | h
        · subst h; simp
        · exact ih _ s h

theorem convertFramesAux_start_ge (sr hop : ℚ) (hs : 0 < sr) (hh : 0 < hop)
    (t : ℚ) (l : List (String × ℕ)) :
    ∀ s ∈ convertFramesAux sr hop t l, t ≤ s.start_time := by
  induction l generalizing t with
  | nil => intro s hs'; simp [convertFramesAux] at hs'
  | cons x rest ih =>
      cases x with
      | mk c d =>
        intro s hmem
        simp only [convertFramesAux, List.mem_cons] at hmem
        rcases hmem with h | h
        · subst h; simp
        · have h1 : t + (d : ℚ) * hop / sr ≤ s.start_time := ih _ s h
          have h2 : 0 ≤ (d : ℚ) * hop / sr := by positivity
          linarith

theorem convertFramesAux_chain (sr hop : ℚ) (t : ℚ) (l : List (String × ℕ)) :
    List.Chain' (fun a b => b.start_time = a.end_time) (convertFramesAux sr hop t l) := by
  induction l generalizing t with
  | nil => simp [convertFramesAux]
  | cons x rest ih =>
      cases x with
      | mk c d =>
        simp only [convertFramesAux]
        refine List.chain'_cons'.mpr ⟨?_, ih _⟩
        intro y hy
        cases rest with
        | nil => simp [convertFramesAux] at hy
        | cons z zs =>
            cases z with
            | mk c' d' =>
              simp only [convertFramesAux, List.head?_cons, Option.mem_def,
                Option.some.injEq] at hy
              subst hy; rfl

theorem convertFramesAux_get (sr hop : ℚ) (t : ℚ) (l : List (String × ℕ)) (i : ℕ)
    (hi : i < (convertFramesAux sr hop t l).length) (hi' : i < l.length) :
    ((convertFramesAux sr hop t l).get ⟨i, hi⟩).duration = ((l.get ⟨i, hi'⟩).2 : ℚ) * hop / sr := by
  induction l generalizing t i with
  | nil => simp at hi'
  | cons x rest ih =>
      cases x with
      | mk c d =>
        cases i with
        | zero => simp [convertFramesAux]
        | succ j =>
            simp only [convertFramesAux, List.get_cons_succ]
            exact ih _ _ _ _

theorem convertFramesAux_pairwise (sr hop : ℚ) (hs : 0 < sr) (hh : 0 < hop)
    (t : ℚ) (l : List (String × ℕ)) :
    List.Pairwise (fun a b => a.start_time ≤ b.start_time) (convertFramesAux sr hop t l) := by
  induction l generalizing t with
  | nil => simp [convertFramesAux]
  | cons x rest ih =>
      cases x with
      | mk c d =>
        simp only [convertFramesAux]
        refine List.pairwise_cons.mpr ⟨?_, ih _⟩
        intro y hy
        have h1 : t + (d : ℚ) * hop / sr ≤ y.start_time :=
          convertFramesAux_start_ge sr hop hs hh _ rest y hy
        have h2 : 0 ≤ (d : ℚ) * hop / sr := by positivity
        simp only
        linarith

/-- C1: `convert_frames_to_time` emits segments sorted ascending by
`start_time`, non-overlapping and gapless: the first segment starts at time 0,
each subsequent segment starts where its predecessor ends, and every segment's
`duration` equals `end_time - start_time` and equals
`frame_count * hop_length / sample_rate`. -/
theorem C1_convert_frames_to_time_invariants (seq : List (String × ℕ)) (sr hop : ℚ)
    (hsr : 0 < sr) (hhop : 0 < hop) :
    (convertFramesToTime seq sr hop).length = seq.length
    ∧ (∀ h : convertFramesToTime seq sr hop ≠ [],
        ((convertFramesToTime seq sr hop).head h).start_time = 0)
    ∧ List.Chain' (fun a b => b.start_time = a.end_time) (convertFramesToTime seq sr hop)
    ∧ (∀ s ∈ convertFramesToTime seq sr hop, s.duration = s.end_time - s.start_time)
    ∧ (∀ i, ∀ hi : i < (convertFramesToTime seq sr hop).length, ∀ hi' : i < seq.length,
        ((convertFramesToTime seq sr hop).get ⟨i, hi⟩).duration
          = ((seq.get ⟨i, hi'⟩).2 : ℚ) * hop / sr)
    ∧ List.Pairwise (fun a b => a.start_time ≤ b.start_time) (convertFramesToTime seq sr hop) := by
  refine ⟨convertFramesAux_length sr hop 0 seq, ?_, convertFramesAux_chain sr hop 0 seq,
    convertFramesAux_duration sr hop 0 seq,
    fun i hi hi' => convertFramesAux_get sr hop 0 seq i hi hi',
    convertFramesAux_pairwise sr hop hsr hhop 0 seq⟩
  intro h
  cases seq with
  | nil => simp [convertFramesToTime, convertFramesAux] at h
  | cons x rest => cases x; simp [convertFramesToTime, convertFramesAux]

/-- Witness for C1 at a concrete input. -/
theorem C1_convert_frames_to_time_invariants_witness :
    (0:ℚ) < 22050 ∧ (0:ℚ) < 512
    ∧ ((convertFramesToTime [("C:maj", 2), ("N", 3)] 22050 512).length = 2
    ∧ (∀ h : convertFramesToTime [("C:maj", 2), ("N", 3)] 22050 512 ≠ [],
        ((convertFramesToTime [("C:maj", 2), ("N", 3)] 22050 512).head h).start_time = 0)
    ∧ List.Chain' (fun a b => b.start_time = a.end_time)
        (convertFramesToTime [("C:maj", 2), ("N", 3)] 22050 512)
    ∧ (∀ s ∈ convertFramesToTime [("C:maj", 2), ("N", 3)] 22050 512,
        s.duration = s.end_time - s.start_time)
    ∧ (∀ i, ∀ hi : i < (convertFramesToTime [("C:maj", 2), ("N", 3)] 22050 512).length,
        ∀ hi' : i < ([("C:maj", 2), ("N", 3)] : List (String × ℕ)).length,
        ((convertFramesToTime [("C:maj", 2), ("N", 3)] 22050 512).get ⟨i, hi⟩).duration
          = ((([("C:maj", 2), ("N", 3)] : List (String × ℕ)).get ⟨i, hi'⟩).2 : ℚ) * 512 / 22050)
    ∧ List.Pairwise (fun a b => a.start_time ≤ b.start_time)
        (convertFramesToTime [("C:maj", 2), ("N", 3)] 22050 512)) :=
  ⟨by norm_num, by norm_num,
    C1_convert_frames_to_time_invariants [("C:maj", 2), ("N", 3)] 22050 512
      (by norm_num) (by norm_num)⟩

/-! ### The normalized template bank (`__init__`)

The source L2-normalizes every template with
`normalize(template.reshape(1, -1), axis=1)` (sklearn, default L2 norm; zero
rows are left as zero rows, which Lean's total `x / 0 = 0` models directly). -/

/-- L2 normalization of a 12-vector (maps the zero vector to itself). -/
noncomputable def normalizeVec (v : Fin 12 → ℝ) : Fin 12 → ℝ :=
  fun i => v i / Real.sqrt (∑ j, v j ^ 2)

/-- View a raw 12-entry template as a real vector. -/
def vecOfRaw (t : List ℕ) : Fin 12 → ℝ := fun i => (t.getD i 0 : ℝ)

/-- `self.CHORD_TEMPLATES` after the normalization loop in `__init__`. -/
noncomputable def CHORD_TEMPLATES : List (String × (Fin 12 → ℝ)) :=
  rawTemplates.map (fun p => (p.1, normalizeVec (vecOfRaw p.2)))

theorem rawTemplate_length (rootIdx : ℕ) (ivs : List ℕ) :
    (rawTemplate rootIdx ivs).length = 12 := by
  simp [rawTemplate]

theorem rawTemplate_apply (rootIdx : ℕ) (ivs : List ℕ) (i : Fin 12) :
    vecOfRaw (rawTemplate rootIdx ivs) i
      = if ivs.any (fun iv => (rootIdx + iv) % 12 == (i : ℕ)) then 1 else 0 := by
  have hi : (i : ℕ) < (rawTemplate rootIdx ivs).length := by
    simp [rawTemplate_length]
  rw [vecOfRaw, List.getD_eq_getElem _ _ hi]
  simp only [rawTemplate, List.getElem_ofFn]
  split <;> simp

/-- Sum of squared entries of an (un-normalized) raw template equals the
number of occupied pitch classes. -/
theorem rawTemplate_sumSq (rootIdx : ℕ) (ivs : List ℕ) :
    ∑ i : Fin 12, vecOfRaw (rawTemplate rootIdx ivs) i ^ 2
      = ((Finset.univ.filter
            (fun i : Fin 12 => ivs.any (fun iv => (rootIdx + iv) % 12 == (i : ℕ)))).card : ℝ) := by
  rw [← Finset.sum_boole]
  refine Finset.sum_congr rfl (fun i _ => ?_)
  rw [rawTemplate_apply]
  split <;> norm_num

/-- L2-normalizing a vector with nonzero energy yields a unit vector
(squared-entry formulation of "L2 norm equals 1"). -/
theorem normSq_normalizeVec (v : Fin 12 → ℝ) (hv : ∑ j, v j ^ 2 ≠ 0) :
    ∑ i : Fin 12, normalizeVec v i ^ 2 = 1 := by
  have hnn : (0:ℝ) ≤ ∑ j, v j ^ 2 := Finset.sum_nonneg (fun j _ => sq_nonneg _)
  simp only [normalizeVec, div_pow, Real.sq_sqrt hnn]
  rw [← Finset.sum_div, div_self hv]

theorem normalizeVec_pos (v : Fin 12 → ℝ) (i : Fin 12)
    (hvi : 0 < v i) (hv : 0 < ∑ j, v j ^ 2) :
    0 < normalizeVec v i := by
  have : 0 < Real.sqrt (∑ j, v j ^ 2) := Real.sqrt_pos.mpr hv
  exact div_pos hvi this

/-- Every chord type's interval list is non-empty (a fact of the static
table; this is what actually rules out all-zero templates). -/
theorem chordTypes_nonempty : ∀ p ∈ chordTypesList, p.2 ≠ [] := by decide

/-- C2 counterexample: the claim's justification "the root interval 0 is
always present in every chord type's interval list" is false: the rootless
voicings omit the root, e.g. `rootless7` has intervals `[4, 7, 10, 14]`. -/
theorem C2_counterexample_rootless7 :
    ("rootless7", [4, 7, 10, 14]) ∈ chordTypesList
      ∧ (0 : ℕ) ∉ ([4, 7, 10, 14] : List ℕ) := by
  constructor
  · decide
  · decide

theorem template_energy_pos (rootIdx : ℕ) (ivs : List ℕ) (hne : ivs ≠ []) :
    0 < ∑ j : Fin 12, vecOfRaw (rawTemplate rootIdx ivs) j ^ 2 := by
  rw [rawTemplate_sumSq]
  have : ∃ i : Fin 12, ivs.any (fun iv => (rootIdx + iv) % 12 == (i : ℕ)) := by
    obtain ⟨iv0, rest, rfl⟩ := List.exists_cons_of_ne_nil hne
    refine ⟨⟨(rootIdx + iv0) % 12, Nat.mod_lt _ (by norm_num)⟩, ?_⟩
    simp [List.any_cons]
  obtain ⟨i, hi⟩ := this
  have hcard : 0 < (Finset.univ.filter
      (fun i : Fin 12 => ivs.any (fun iv => (rootIdx + iv) % 12 == (i : ℕ)))).card := by
    refine Finset.card_pos.mpr ⟨i, ?_⟩
    simp only [Finset.mem_filter, Finset.mem_univ, true_and]
    exact hi
  exact_mod_cast hcard

/-- C2 (amended): for every root and chord type, the L2-normalized template in
the bank has unit L2 norm (sum of squared entries equals 1), is positive at
pitch class `(root + interval) % 12` for every listed interval, and is not the
all-zero vector — because every chord type's interval list is non-empty (not
because interval 0 is always listed, which is false for rootless voicings). -/
theorem C2_template_bank_normalized (rn : String) (ri : ℕ) (tn : String) (ivs : List ℕ)
    (hr : (rn, ri) ∈ rootsList) (ht : (tn, ivs) ∈ chordTypesList) :
    ((rn ++ ":" ++ tn), normalizeVec (vecOfRaw (rawTemplate ri ivs))) ∈ CHORD_TEMPLATES
    ∧ ∑ i : Fin 12, normalizeVec (vecOfRaw (rawTemplate ri ivs)) i ^ 2 = 1
    ∧ (∀ iv ∈ ivs, 0 < normalizeVec (vecOfRaw (rawTemplate ri ivs))
        ⟨(ri + iv) % 12, Nat.mod_lt _ (by norm_num)⟩)
    ∧ normalizeVec (vecOfRaw (rawTemplate ri ivs)) ≠ (fun _ => 0) := by
  have hne : ivs ≠ [] := chordTypes_nonempty _ ht
  have hpos := template_energy_pos ri ivs hne
  refine ⟨?_, normSq_normalizeVec _ (ne_of_gt hpos), ?_, ?_⟩
  · refine List.mem_map.mpr ⟨((rn ++ ":" ++ tn), rawTemplate ri ivs), ?_, rfl⟩
    refine List.mem_flatMap.mpr ⟨(rn, ri), hr, ?_⟩
    exact List.mem_map.mpr ⟨(tn, ivs), ht, rfl⟩
  · intro iv hiv
    refine normalizeVec_pos _ _ ?_ hpos
    rw [rawTemplate_apply]
    have : ivs.any (fun x => (ri + x) % 12 == ((ri + iv) % 12)) = true := by
      rw [List.any_eq_true]
      exact ⟨iv, hiv, by simp⟩
    simp [this]
  · intro hzero
    obtain ⟨iv0, rest, rfl⟩ := List.exists_cons_of_ne_nil hne
    have h1 : 0 < normalizeVec (vecOfRaw (rawTemplate ri (iv0 :: rest)))
        ⟨(ri + iv0) % 12, Nat.mod_lt _ (by norm_num)⟩ := by
      refine normalizeVec_pos _ _ ?_ hpos
      rw [rawTemplate_apply]
      simp [List.any_cons]
    rw [hzero] at h1
    exact lt_irrefl 0 h1

/-- Witness for C2 at root C, chord type `maj`. -/
theorem C2_template_bank_normalized_witness :
    ("C", 0) ∈ rootsList ∧ ("maj", [0, 4, 7]) ∈ chordTypesList
    ∧ (("C" ++ ":" ++ "maj", normalizeVec (vecOfRaw (rawTemplate 0 [0, 4, 7]))) ∈ CHORD_TEMPLATES
      ∧ ∑ i : Fin 12, normalizeVec (vecOfRaw (rawTemplate 0 [0, 4, 7])) i ^ 2 = 1
      ∧ (∀ iv ∈ [0, 4, 7], 0 < normalizeVec (vecOfRaw (rawTemplate 0 [0, 4, 7]))
          ⟨(0 + iv) % 12, Nat.mod_lt _ (by norm_num)⟩)
      ∧ normalizeVec (vecOfRaw (rawTemplate 0 [0, 4, 7])) ≠ (fun _ => 0)) :=
  ⟨by decide, by decide,
    C2_template_bank_normalized "C" 0 "maj" [0, 4, 7] (by decide) (by decide)⟩

/-! ### Temporal smoother and segmenter (label-level part of `identify_chords`)

The per-frame loop of `identify_chords` maintains a sliding buffer of the most
recent frame labels (`window_size` long), majority-votes once the buffer is
full (`_apply_temporal_smoothing` / `Counter.most_common`), and tracks the
current run of identical smoothed labels, emitting a `(chord, frames)` pair on
run change (and at stream end) when the run passes the duration test. -/

/-- Python's `str.endswith(suffix)`. -/
def strEndsWith (s suffix : String) : Bool := suffix.data.isSuffixOf s.data

/-- The part after the colon of a `root:type` chord name
(`chord.split(':')[1]`; returns `""` for colon-free strings, on which the
source would raise instead — unreachable for labels reaching this code). -/
def chordTypeOf (chord : String) : String := ⟨(chord.data.splitOn ':').getD 1 []⟩

/-- One insertion into a first-occurrence-ordered counter (Python `Counter`
preserves first-insertion order of keys). -/
def bumpCount : List (String × ℕ) → String → List (String × ℕ)
  | [], x => [(x, 1)]
  | (y, n) :: rest, x => if y = x then (y, n + 1) :: rest else (y, n) :: bumpCount rest x

def countsInOrder (l : List String) : List (String × ℕ) := l.foldl bumpCount []

/-- `Counter(buffer).most_common(1)[0][0]`: the most frequent label, ties
resolved to the first-encountered one (`heapq.nlargest` is stable). The
source would raise `IndexError` on an empty buffer; that case is unreachable
because the buffer holds exactly `window_size ≥ 1` labels when consulted. -/
def mostCommon (l : List String) : String :=
  ((countsInOrder l).foldl (fun best p => if best.2 < p.2 then p else best) ("", 0)).1

/-- The run test applied by `identify_chords` both on run change and at
stream end: `duration >= min_duration_frames` and
(`not chord.endswith(':cluster')` or `duration >= min_duration_frames * 2`). -/
def runEligible (minDur : ℕ) (label : String) (dur : ℕ) : Bool :=
  decide (minDur ≤ dur) && (!strEndsWith label ":cluster" || decide (minDur * 2 ≤ dur))

/-- Loop state of `identify_chords`: the sliding label buffer, the current
run (`current_chord`, `current_chord_duration`) and the emitted run list. -/
structure SmootherState where
  buffer : List String
  current : Option String
  dur : ℕ
  seq : List (String × ℕ)
deriving DecidableEq, Repr

/-- The buffer update of the frame loop: `chord_buffer.append(best_chord)`
followed by `chord_buffer.pop(0)` when the buffer exceeds `window_size`. -/
def newBuffer (w : ℕ) (buf : List String) (label : String) : List String :=
  if w < (buf ++ [label]).length then (buf ++ [label]).drop 1 else buf ++ [label]

/-- The run-emission step shared by the run-change branch and the final
flush of `identify_chords`: append `(current_chord, duration)` when the run
is eligible; a `None` current chord emits nothing. -/
def emitRun (minDur : ℕ) (current : Option String) (dur : ℕ)
    (seq : List (String × ℕ)) : List (String × ℕ) :=
  match current with
  | some c => if runEligible minDur c dur then seq ++ [(c, dur)] else seq
  | none => seq

/-- One iteration of the `identify_chords` frame loop, after the frame's
best label has been computed. -/
def smootherStep (w minDur : ℕ) (s : SmootherState) (label : String) : SmootherState :=
  if (newBuffer w s.buffer label).length = w then
    if s.current ≠ some (mostCommon (newBuffer w s.buffer label)) then
      { buffer := newBuffer w s.buffer label
        current := some (mostCommon (newBuffer w s.buffer label))
        dur := 1
        seq := emitRun minDur s.current s.dur s.seq }
    else
      { s with buffer := newBuffer w s.buffer label, dur := s.dur + 1 }
  else
    { s with buffer := newBuffer w s.buffer label }

/-- The smoothing/segmentation pass of `identify_chords` as a function of the
stream of per-frame labels: run the frame loop, then flush the final run
under the same eligibility rule. -/
def smoothSegments (w minDur : ℕ) (labels : List String) : List (String × ℕ) :=
  emitRun minDur
    (labels.foldl (smootherStep w minDur) ⟨[], none, 0, []⟩).current
    (labels.foldl (smootherStep w minDur) ⟨[], none, 0, []⟩).dur
    (labels.foldl (smootherStep w minDur) ⟨[], none, 0, []⟩).seq

/-- The stream of majority labels: one vote per full window of `w`
consecutive frame labels. -/
def majorityStream (w : ℕ) (labels : List String) : List String :=
  (List.range (labels.length + 1 - w)).map (fun i => mostCommon ((labels.drop i).take w))

/-- Run-length encoding, built left to right. -/
def rleStep (runs : List (String × ℕ)) (x : String) : List (String × ℕ) :=
  match runs.getLast? with
  | some (y, n) => if y = x then runs.dropLast ++ [(y, n + 1)] else runs ++ [(x, 1)]
  | none => [(x, 1)]

def rle (l : List String) : List (String × ℕ) := l.foldl rleStep []

theorem rle_concat (l : List String) (x : String) : rle (l ++ [x]) = rleStep (rle l) x :=
  List.foldl_concat _ _ _ _

theorem majorityStream_small (w : ℕ) (labels : List String) (h : labels.length + 1 ≤ w) :
    majorityStream w labels = [] := by
  unfold majorityStream
  rw [Nat.sub_eq_zero_of_le h]
  rfl

theorem majorityStream_concat (w : ℕ) (hw : 1 ≤ w) (labels : List String) (x : String)
    (h : w ≤ labels.length + 1) :
    majorityStream w (labels ++ [x])
      = majorityStream w labels
        ++ [mostCommon ((labels ++ [x]).drop (labels.length + 1 - w))] := by
  unfold majorityStream
  have hlen : (labels ++ [x]).length + 1 - w = (labels.length + 1 - w) + 1 := by
    simp only [List.length_append, List.length_singleton]
    omega
  rw [hlen, List.range_succ, List.map_append]
  congr 1
  · refine List.map_congr_left (fun i hi => ?_)
    rw [List.mem_range] at hi
    have hi' : i + w ≤ labels.length := by omega
    have h1 : (labels ++ [x]).drop i = labels.drop i ++ [x] :=
      List.drop_append_of_le_length (by omega)
    have h2 : (labels.drop i ++ [x]).take w = (labels.drop i).take w :=
      List.take_append_of_le_length (by rw [List.length_drop]; omega)
    rw [h1, h2]
  · simp only [List.map_cons, List.map_nil]
    congr 2
    refine List.take_of_length_le ?_
    rw [List.length_drop, List.length_append, List.length_singleton]
    omega

theorem smootherStep_full (w minDur : ℕ) (s : SmootherState) (label : String)
    (h : (newBuffer w s.buffer label).length = w) :
    smootherStep w minDur s label =
      if s.current ≠ some (mostCommon (newBuffer w s.buffer label)) then
        { buffer := newBuffer w s.buffer label
          current := some (mostCommon (newBuffer w s.buffer label))
          dur := 1
          seq := emitRun minDur s.current s.dur s.seq }
      else ⟨newBuffer w s.buffer label, s.current, s.dur + 1, s.seq⟩ := by
  rw [smootherStep, if_pos h]

theorem smootherStep_filling (w minDur : ℕ) (s : SmootherState) (label : String)
    (h : ¬ (newBuffer w s.buffer label).length = w) :
    smootherStep w minDur s label = ⟨newBuffer w s.buffer label, s.current, s.dur, s.seq⟩ := by
  rw [smootherStep, if_neg h]

/-- The full loop-state invariant of the smoothing pass: the buffer holds the
last (at most) `w` labels, and the run tracker mirrors the run-length
encoding of the majority stream, with all fully-ended runs filtered by the
eligibility rule. -/
theorem smootherState_invariant (w minDur : ℕ) (hw : 1 ≤ w) (labels : List String) :
    (labels.foldl (smootherStep w minDur) ⟨[], none, 0, []⟩).buffer
        = labels.drop (labels.length - w)
    ∧ ((majorityStream w labels = []
          ∧ (labels.foldl (smootherStep w minDur) ⟨[], none, 0, []⟩).current = none
          ∧ (labels.foldl (smootherStep w minDur) ⟨[], none, 0, []⟩).seq = [])
        ∨ (∃ rs r, rle (majorityStream w labels) = rs ++ [r]
          ∧ (labels.foldl (smootherStep w minDur) ⟨[], none, 0, []⟩).current = some r.1
          ∧ (labels.foldl (smootherStep w minDur) ⟨[], none, 0, []⟩).dur = r.2
          ∧ (labels.foldl (smootherStep w minDur) ⟨[], none, 0, []⟩).seq
              = rs.filter (fun p => runEligible minDur p.1 p.2))) := by
  induction labels using List.reverseRecOn with
  | nil =>
      exact ⟨by simp, Or.inl ⟨majorityStream_small w [] (by simpa using hw), rfl, rfl⟩⟩
  | append_singleton l x ih =>
      obtain ⟨ihbuf, ihrest⟩ := ih
      rw [List.foldl_concat]
      set st := l.foldl (smootherStep w minDur) ⟨[], none, 0, []⟩ with hst
      by_cases hfull : w ≤ l.length + 1
      · -- the buffer fills up: a new majority vote is cast
        have hnewbuf : newBuffer w st.buffer x = (l ++ [x]).drop (l.length + 1 - w) := by
          rw [newBuffer, ihbuf]
          by_cases hlw : l.length < w
          · have hcond : ¬ (w < ((l.drop (l.length - w)) ++ [x]).length) := by
              rw [List.length_append, List.length_drop, List.length_singleton]
              omega
            rw [if_neg hcond]
            have h1 : l.length - w = 0 := by omega
            have h2 : l.length + 1 - w = 0 := by omega
            rw [h1, h2, List.drop_zero, List.drop_zero]
          · push_neg at hlw
            have hcond : w < ((l.drop (l.length - w)) ++ [x]).length := by
              rw [List.length_append, List.length_drop, List.length_singleton]
              omega
            rw [if_pos hcond]
            rw [List.drop_append_of_le_length (by rw [List.length_drop]; omega)]
            rw [List.drop_drop]
            rw [List.drop_append_of_le_length (by omega)]
            have h3 : l.length - w + 1 = l.length + 1 - w := by omega
            rw [h3]
        have hnewlen : (newBuffer w st.buffer x).length = w := by
          rw [hnewbuf, List.length_drop, List.length_append, List.length_singleton]
          omega
        have hmaj := majorityStream_concat w hw l x hfull
        set m := mostCommon ((l ++ [x]).drop (l.length + 1 - w)) with hm
        have hmost : mostCommon (newBuffer w st.buffer x) = m := by rw [hnewbuf]
        have hlen' : (l ++ [x]).length - w = l.length + 1 - w := by
          rw [List.length_append, List.length_singleton]
        rcases ihrest with ⟨hmaj0, hcur, hseq⟩ | ⟨rs, r, hrle, hcur, hdur, hseq⟩
        · -- first full window ever: majority stream was empty
          have hstep : smootherStep w minDur st x
              = ⟨(l ++ [x]).drop (l.length + 1 - w), some m, 1, []⟩ := by
            rw [smootherStep_full w minDur st x hnewlen, hmost, hnewbuf, hcur]
            rw [if_pos (show (none : Option String) ≠ some m from by simp)]
            rw [hseq]
            rfl
          rw [hstep]
          refine ⟨by rw [hlen'], ?_⟩
          refine Or.inr ⟨[], (m, 1), ?_, rfl, rfl, rfl⟩
          rw [hmaj, hmaj0]
          rfl
        · obtain ⟨rl, rd⟩ := r
          simp only at hcur hdur hseq
          by_cases hsame : rl = m
          · -- same majority label: extend the current run
            have hstep : smootherStep w minDur st x
                = ⟨(l ++ [x]).drop (l.length + 1 - w), st.current, st.dur + 1, st.seq⟩ := by
              rw [smootherStep_full w minDur st x hnewlen, hmost, hnewbuf]
              rw [if_neg (by rw [hcur, hsame]; simp)]
            rw [hstep]
            refine ⟨by rw [hlen'], Or.inr ⟨rs, (rl, rd + 1), ?_, by simpa using hcur,
              by simp [hdur], by simpa using hseq⟩⟩
            rw [hmaj, rle_concat, hrle]
            simp only [rleStep, List.getLast?_concat]
            rw [if_pos hsame, List.dropLast_concat]
          · -- majority label changed: emit the ended run if eligible
            have hstep : smootherStep w minDur st x
                = ⟨(l ++ [x]).drop (l.length + 1 - w), some m, 1,
                    emitRun minDur st.current st.dur st.seq⟩ := by
              rw [smootherStep_full w minDur st x hnewlen, hmost, hnewbuf]
              rw [if_pos (by rw [hcur]; simpa using hsame)]
            rw [hstep]
            refine ⟨by rw [hlen'], Or.inr ⟨rs ++ [(rl, rd)], (m, 1), ?_, rfl, rfl, ?_⟩⟩
            · rw [hmaj, rle_concat, hrle]
              simp only [rleStep, List.getLast?_concat]
              rw [if_neg hsame]
            · rw [hcur, hdur, hseq]
              simp only [emitRun, List.filter_append]
              by_cases he : runEligible minDur rl rd
              · rw [if_pos he]
                simp [List.filter, he]
              · rw [if_neg he]
                simp only [List.filter]
                rw [Bool.not_eq_true] at he
                simp [he]
      · -- the buffer is still filling: no majority vote yet
        push_neg at hfull
        have hnewbuf : newBuffer w st.buffer x = l ++ [x] := by
          rw [newBuffer, ihbuf]
          have h1 : l.length - w = 0 := by omega
          rw [h1, List.drop_zero]
          rw [if_neg (by rw [List.length_append, List.length_singleton]; omega)]
        have hnewlen : ¬ (newBuffer w st.buffer x).length = w := by
          rw [hnewbuf, List.length_append, List.length_singleton]
          omega
        rw [smootherStep_filling w minDur st x hnewlen, hnewbuf]
        have hmaj' : majorityStream w (l ++ [x]) = [] := by
          refine majorityStream_small w (l ++ [x]) ?_
          rw [List.length_append, List.length_singleton]
          omega
        rcases ihrest with ⟨_, hcur, hseq⟩ | ⟨rs, r, hrle, _, _, _⟩
        · refine ⟨?_, Or.inl ⟨hmaj', hcur, hseq⟩⟩
          have h2 : (l ++ [x]).length - w = 0 := by
            rw [List.length_append, List.length_singleton]
            omega
          rw [h2, List.drop_zero]
        · exfalso
          have hm0 : majorityStream w l = [] := majorityStream_small w l (by omega)
          rw [hm0] at hrle
          exact List.append_ne_nil_of_right_ne_nil rs (by simp) hrle.symm

theorem smoothSegments_eq_filter_rle (w minDur : ℕ) (hw : 1 ≤ w) (labels : List String) :
    smoothSegments w minDur labels
      = (rle (majorityStream w labels)).filter (fun p => runEligible minDur p.1 p.2) := by
  obtain ⟨-, hrest⟩ := smootherState_invariant w minDur hw labels
  rcases hrest with ⟨hmaj0, hcur, hseq⟩ | ⟨rs, r, hrle, hcur, hdur, hseq⟩
  · rw [smoothSegments, hcur, hseq, hmaj0]
    rfl
  · obtain ⟨rl, rd⟩ := r
    simp only at hcur hdur hseq
    rw [smoothSegments, hcur, hdur, hseq, hrle]
    simp only [emitRun, List.filter_append]
    by_cases he : runEligible minDur rl rd
    · rw [if_pos he]
      simp [List.filter, he]
    · rw [if_neg he]
      simp only [List.filter]
      rw [Bool.not_eq_true] at he
      simp [he]

/-- C6 (amended): the smoothing/segmentation pass emits exactly the runs of
the majority-label stream that pass the duration rule: run length at least
`min_duration_frames` and (the label does not end in `":cluster"` — i.e. is
not of chord type `cluster` itself; `cluster7`/`cluster9` labels are NOT
special-cased — or run length at least `2 * min_duration_frames`).
Ineligible runs are dropped, never merged, and the final run is flushed under
exactly the same rule: the output is literally `filter eligible ∘ rle`. -/
theorem C6_smoother_emission_rule (w minDur : ℕ) (hw : 1 ≤ w) (labels : List String) :
    smoothSegments w minDur labels
      = (rle (majorityStream w labels)).filter (fun p => runEligible minDur p.1 p.2) :=
  smoothSegments_eq_filter_rle w minDur hw labels

/-- Witness for C6 on a concrete label stream: 28 frames of `A:maj` then 14
frames of `B:min` with `w = 9`, `min_duration_frames = 15`: the first run
(20 majority frames) is emitted, the second (14) is dropped. -/
theorem C6_smoother_emission_rule_witness :
    1 ≤ 9
    ∧ smoothSegments 9 15 (List.replicate 28 "A:maj" ++ List.replicate 14 "B:min")
        = (rle (majorityStream 9 (List.replicate 28 "A:maj" ++ List.replicate 14 "B:min"))).filter
            (fun p => runEligible 15 p.1 p.2) :=
  ⟨by norm_num,
    C6_smoother_emission_rule 9 15 (by norm_num)
      (List.replicate 28 "A:maj" ++ List.replicate 14 "B:min")⟩

/-- Modelled from the spec: the spec's dense "cluster" category is the chord
types `cluster`, `cluster7`, `cluster9` (claim C5's enumeration), and a label
is cluster-categorized when its type component is one of them. -/
def specClusterLabel (label : String) : Bool :=
  (["cluster", "cluster7", "cluster9"] : List String).contains (chordTypeOf label)

/-- Modelled from the spec: claim C6's emission rule as stated, with
"cluster-type label" read as the spec's cluster category. -/
def specRunEligible (minDur : ℕ) (label : String) (dur : ℕ) : Bool :=
  decide (minDur ≤ dur) && (!specClusterLabel label || decide (minDur * 2 ≤ dur))

set_option maxRecDepth 20000 in
/-- C6 counterexample: a run of 20 majority frames of `C:cluster7` (from 28
input frames at window 9) fails the claimed rule (cluster category, 20 < 30)
yet the code emits it, because the source only special-cases labels that end
in `":cluster"`, which `C:cluster7` does not. -/
theorem C6_counterexample_cluster7_run :
    smoothSegments 9 15 (List.replicate 28 "C:cluster7") = [("C:cluster7", 20)]
    ∧ specRunEligible 15 "C:cluster7" 20 = false := by
  constructor
  · decide
  · decide

/-! ### Frame-level chord classifier (`_enhance_chroma_vector`,
`_get_chord_candidates`, `_select_best_chord`, `_prefer_simpler_chord`) -/

/-- `CHORD_COMPLEXITY.get(chord_type, 10)` for the type part of a label. -/
def complexityOf (chord : String) : ℕ :=
  (CHORD_COMPLEXITY.lookup (chordTypeOf chord)).getD 10

/-- `_prefer_simpler_chord`: choose the candidate whose chord type has the
lowest complexity rank; Python's `min(..., key=...)` keeps the first minimum.
The source returns `None` for an empty candidate list (unreachable as
called). -/
def preferSimplerChord (cands : List String) : Option String :=
  match cands with
  | [] => none
  | c :: cs => some (cs.foldl (fun best x =>
      if complexityOf x < complexityOf best then x else best) c)

noncomputable section

/-- `np.dot` on 12-vectors. -/
def dotProduct12 (a b : Fin 12 → ℝ) : ℝ := ∑ i, a i * b i

/-- `_enhance_chroma_vector`: multiply bins 0 and 4 by `bass_weight` (the
source's comments call these "root" and "fifth"; musically, with bin 0 = C,
bin 4 is the major third E) and bin 7 by `harmonic_weight` (the comment says
"octave"; bin 7 is the perfect fifth G), then L2-renormalize. -/
def enhanceChromaVector (v : Fin 12 → ℝ) : Fin 12 → ℝ :=
  normalizeVec (fun i =>
    if i = 0 then (bass_weight : ℝ) * v i
    else if i = 4 then (bass_weight : ℝ) * v i
    else if i = 7 then (harmonic_weight : ℝ) * v i
    else v i)

/-- The per-template body of `_get_chord_candidates`: names ending in
`":cluster"` must reach `cluster_threshold`, all others the ordinary
threshold. -/
def candidateScore (v : Fin 12 → ℝ) (threshold : ℝ) (p : String × (Fin 12 → ℝ)) :
    Option (String × ℝ) :=
  if strEndsWith p.1 ":cluster" then
    if (cluster_threshold : ℝ) ≤ dotProduct12 v p.2 then some (p.1, dotProduct12 v p.2) else none
  else
    if threshold ≤ dotProduct12 v p.2 then some (p.1, dotProduct12 v p.2) else none

/-- `_get_chord_candidates`: survivors of per-template thresholding, sorted
descending by similarity (Python's `sorted(..., reverse=True)` is stable;
so is `insertionSort` with a relation that holds on ties). -/
def getChordCandidates (v : Fin 12 → ℝ) (threshold : ℝ) : List (String × ℝ) :=
  (CHORD_TEMPLATES.filterMap (candidateScore v threshold)).insertionSort
    (fun a b => b.2 ≤ a.2)

/-- `_select_best_chord`. The source takes the top three candidates but only
inspects the first two: a lone candidate wins outright; a top candidate
beating the runner-up by more than `similarity_threshold` wins; otherwise
the simpler of the top two is chosen. Empty candidate list gives `"N"`. -/
def selectBestChord (cands : List (String × ℝ)) : String :=
  match cands with
  | [] => "N"
  | [c] => c.1
  | c0 :: c1 :: _ =>
      if (similarity_threshold : ℝ) < c0.2 - c1.2 then c0.1
      else (preferSimplerChord [c0.1, c1.1]).getD "N"

/-- The per-frame label computation of the `identify_chords` loop. -/
def frameLabel (threshold : ℝ) (v : Fin 12 → ℝ) : String :=
  selectBestChord (getChordCandidates (enhanceChromaVector v) threshold)

/-- `identify_chords(chroma, threshold, min_duration_frames)`, with the
chroma matrix given as its list of columns: per-frame classification
followed by the sliding-window smoother/segmenter. -/
def identifyChords (threshold : ℝ) (minDur w : ℕ) (chroma : List (Fin 12 → ℝ)) :
    List (String × ℕ) :=
  smoothSegments w minDur (chroma.map (frameLabel threshold))

end

/-- C4 counterexample: on the all-ones chroma vector, the perfect-fifth bin
(pitch class 7 relative to bin 0) comes out scaled by `harmonic_weight`
(1.05) relative to an untouched bin, not by the bass-emphasis factor
`bass_weight` (1.2) as claimed: the source multiplies bins 0 and 4 (not the
fifth) by `bass_weight`. -/
theorem C4_counterexample_fifth_bin :
    enhanceChromaVector (fun _ => 1) 7
        = (harmonic_weight : ℝ) * enhanceChromaVector (fun _ => 1) 1
    ∧ enhanceChromaVector (fun _ => 1) 1 ≠ 0
    ∧ enhanceChromaVector (fun _ => 1) 7
        ≠ (bass_weight : ℝ) * enhanceChromaVector (fun _ => 1) 1 := by
  have hsum : ∑ j : Fin 12, ((if j = 0 then (bass_weight : ℝ) * 1
      else if j = 4 then (bass_weight : ℝ) * 1
      else if j = 7 then (harmonic_weight : ℝ) * 1
      else 1) ^ 2) = 5193/400 := by
    simp +decide only [Fin.sum_univ_succ, Fin.sum_univ_zero]
    norm_num [bass_weight, harmonic_weight]
  have hpos : (0:ℝ) < Real.sqrt ((5193:ℝ)/400) := Real.sqrt_pos.mpr (by norm_num)
  have hne : Real.sqrt ((5193:ℝ)/400) ≠ 0 := ne_of_gt hpos
  have h1 : enhanceChromaVector (fun _ => 1) 1 = 1 / Real.sqrt ((5193:ℝ)/400) := by
    simp only [enhanceChromaVector, normalizeVec]
    rw [hsum, if_neg (by decide), if_neg (by decide), if_neg (by decide)]
  have h7 : enhanceChromaVector (fun _ => 1) 7
      = (harmonic_weight : ℝ) / Real.sqrt ((5193:ℝ)/400) := by
    simp only [enhanceChromaVector, normalizeVec]
    rw [hsum, if_neg (by decide), if_neg (by decide), if_pos (by decide), mul_one]
  refine ⟨?_, ?_, ?_⟩
  · rw [h1, h7]
    ring
  · rw [h1]
    positivity
  · rw [h1, h7]
    intro hcontra
    have h3 := congrArg (fun x : ℝ => x * Real.sqrt ((5193:ℝ)/400)) hcontra
    simp only [div_mul_cancel₀ _ hne, one_div, mul_assoc, inv_mul_cancel₀ hne, mul_one] at h3
    rw [harmonic_weight, bass_weight] at h3
    norm_num at h3

/-- C4 (amended): the enhancement multiplies bins 0 and 4 by `bass_weight`
and bin 7 (the perfect fifth above C) by `harmonic_weight`, then
L2-renormalizes: there is a single positive factor `c` (the reciprocal of
the weighted vector's norm) with `out 0 = c·bass·v 0`, `out 4 = c·bass·v 4`,
`out 7 = c·harmonic·v 7`, every other bin `out i = c·v i` (relative
proportions of untouched bins unchanged), and the output has unit L2 norm. -/
theorem C4_enhance_weighting (v : Fin 12 → ℝ) (hv : ∃ i, v i ≠ 0) :
    ∃ c : ℝ, 0 < c
    ∧ enhanceChromaVector v 0 = c * ((bass_weight : ℝ) * v 0)
    ∧ enhanceChromaVector v 4 = c * ((bass_weight : ℝ) * v 4)
    ∧ enhanceChromaVector v 7 = c * ((harmonic_weight : ℝ) * v 7)
    ∧ (∀ i : Fin 12, i ≠ 0 → i ≠ 4 → i ≠ 7 → enhanceChromaVector v i = c * v i)
    ∧ ∑ i : Fin 12, enhanceChromaVector v i ^ 2 = 1 := by
  obtain ⟨i0, hi0⟩ := hv
  set wv : Fin 12 → ℝ := fun i =>
    if i = 0 then (bass_weight : ℝ) * v i
    else if i = 4 then (bass_weight : ℝ) * v i
    else if i = 7 then (harmonic_weight : ℝ) * v i
    else v i with hwv
  have hw0 : wv 0 = (bass_weight : ℝ) * v 0 := by
    simp +decide [hwv]
  have hw4 : wv 4 = (bass_weight : ℝ) * v 4 := by
    simp +decide [hwv]
  have hw7 : wv 7 = (harmonic_weight : ℝ) * v 7 := by
    simp +decide [hwv]
  have hwother : ∀ i : Fin 12, i ≠ 0 → i ≠ 4 → i ≠ 7 → wv i = v i := by
    intro i a b c
    simp only [hwv]
    rw [if_neg a, if_neg b, if_neg c]
  have hwne : wv i0 ≠ 0 := by
    have hb : (bass_weight : ℝ) ≠ 0 := by rw [bass_weight]; norm_num
    have hh : (harmonic_weight : ℝ) ≠ 0 := by rw [harmonic_weight]; norm_num
    by_cases h0 : i0 = 0
    · rw [h0] at hi0 ⊢
      rw [hw0]
      exact mul_ne_zero hb hi0
    · by_cases h4 : i0 = 4
      · rw [h4] at hi0 ⊢
        rw [hw4]
        exact mul_ne_zero hb hi0
      · by_cases h7 : i0 = 7
        · rw [h7] at hi0 ⊢
          rw [hw7]
          exact mul_ne_zero hh hi0
        · rw [hwother i0 h0 h4 h7]
          exact hi0
  have hS : 0 < ∑ j, wv j ^ 2 := by
    refine Finset.sum_pos' (fun j _ => sq_nonneg _) ⟨i0, Finset.mem_univ i0, ?_⟩
    exact (sq_nonneg (wv i0)).lt_of_ne
      (fun h => hwne ((pow_eq_zero_iff two_ne_zero).mp h.symm))
  refine ⟨1 / Real.sqrt (∑ j, wv j ^ 2), by positivity, ?_, ?_, ?_, ?_, ?_⟩
  · show wv 0 / Real.sqrt (∑ j, wv j ^ 2) = _
    rw [hw0]
    ring
  · show wv 4 / Real.sqrt (∑ j, wv j ^ 2) = _
    rw [hw4]
    ring
  · show wv 7 / Real.sqrt (∑ j, wv j ^ 2) = _
    rw [hw7]
    ring
  · intro i hi0' hi4 hi7
    show wv i / Real.sqrt (∑ j, wv j ^ 2) = _
    rw [hwother i hi0' hi4 hi7]
    ring
  · exact normSq_normalizeVec wv (ne_of_gt hS)

/-- Witness for C4 at the all-ones vector. -/
theorem C4_enhance_weighting_witness :
    (∃ i : Fin 12, (fun _ : Fin 12 => (1:ℝ)) i ≠ 0)
    ∧ (∃ c : ℝ, 0 < c
      ∧ enhanceChromaVector (fun _ => 1) 0 = c * ((bass_weight : ℝ) * 1)
      ∧ enhanceChromaVector (fun _ => 1) 4 = c * ((bass_weight : ℝ) * 1)
      ∧ enhanceChromaVector (fun _ => 1) 7 = c * ((harmonic_weight : ℝ) * 1)
      ∧ (∀ i : Fin 12, i ≠ 0 → i ≠ 4 → i ≠ 7 → enhanceChromaVector (fun _ => 1) i = c * 1)
      ∧ ∑ i : Fin 12, enhanceChromaVector (fun _ => 1) i ^ 2 = 1) :=
  ⟨⟨0, one_ne_zero⟩, C4_enhance_weighting (fun _ => 1) ⟨0, one_ne_zero⟩⟩

/-! ### Candidate filtering (C5) and label well-formedness (C10) -/

theorem getChordCandidates_mem_iff (v : Fin 12 → ℝ) (threshold : ℝ) (n : String) (s : ℝ) :
    (n, s) ∈ getChordCandidates v threshold
      ↔ ∃ t, (n, t) ∈ CHORD_TEMPLATES ∧ s = dotProduct12 v t
          ∧ ((strEndsWith n ":cluster" = true ∧ (cluster_threshold : ℝ) ≤ s)
            ∨ (strEndsWith n ":cluster" = false ∧ threshold ≤ s)) := by
  rw [getChordCandidates, List.mem_insertionSort, List.mem_filterMap]
  constructor
  · rintro ⟨⟨n', t⟩, hmem, hf⟩
    rw [candidateScore] at hf
    by_cases hc : strEndsWith n' ":cluster"
    · rw [if_pos hc] at hf
      by_cases ht : (cluster_threshold : ℝ) ≤ dotProduct12 v t
      · rw [if_pos ht] at hf
        rw [Option.some.injEq, Prod.mk.injEq] at hf
        obtain ⟨rfl, rfl⟩ := hf
        exact ⟨t, hmem, rfl, Or.inl ⟨hc, ht⟩⟩
      · rw [if_neg ht] at hf
        exact absurd hf (by simp)
    · rw [if_neg hc] at hf
      by_cases ht : threshold ≤ dotProduct12 v t
      · rw [if_pos ht] at hf
        rw [Option.some.injEq, Prod.mk.injEq] at hf
        obtain ⟨rfl, rfl⟩ := hf
        exact ⟨t, hmem, rfl, Or.inr ⟨Bool.not_eq_true _ ▸ hc, ht⟩⟩
      · rw [if_neg ht] at hf
        exact absurd hf (by simp)
  · rintro ⟨t, hmem, rfl, hcase⟩
    refine ⟨(n, t), hmem, ?_⟩
    rw [candidateScore]
    rcases hcase with ⟨hc, ht⟩ | ⟨hc, ht⟩
    · rw [if_pos hc, if_pos ht]
    · rw [if_neg (by simp [hc]), if_pos ht]

/-- C5 (amended): in per-frame candidate filtering, a template's score pair
survives iff its template is in the bank, the score is the dot product with
the (enhanced) input vector, and the score meets `cluster_threshold` when the
template name ends in `":cluster"` (i.e. exactly chord type `cluster`;
`cluster7` and `cluster9` templates are NOT held to the stricter threshold,
contrary to the claim's enumeration) or `detection_threshold` otherwise; and
an empty surviving-candidate list makes the frame label the sentinel `"N"`. -/
theorem C5_cluster_and_detection_thresholds (v : Fin 12 → ℝ) (threshold : ℝ)
    (n : String) (s : ℝ) :
    ((n, s) ∈ getChordCandidates v threshold
      ↔ ∃ t, (n, t) ∈ CHORD_TEMPLATES ∧ s = dotProduct12 v t
          ∧ ((strEndsWith n ":cluster" = true ∧ (cluster_threshold : ℝ) ≤ s)
            ∨ (strEndsWith n ":cluster" = false ∧ threshold ≤ s)))
    ∧ selectBestChord ([] : List (String × ℝ)) = "N" :=
  ⟨getChordCandidates_mem_iff v threshold n s, rfl⟩

/-- The raw `C:cluster7` template: ones exactly at pitch classes 0–3. -/
theorem rawCluster7_entries :
    ∀ i : Fin 12, vecOfRaw (rawTemplate 0 [0, 1, 2, 3]) i
      = if (i : ℕ) ≤ 3 then 1 else 0 := by
  intro i
  rw [rawTemplate_apply]
  fin_cases i <;> simp

theorem rawCluster7_sumSq :
    ∑ j : Fin 12, vecOfRaw (rawTemplate 0 [0, 1, 2, 3]) j ^ 2 = 4 := by
  simp only [rawCluster7_entries]
  simp +decide only [Fin.sum_univ_succ, Fin.sum_univ_zero]
  norm_num

/-- A unit test vector: energy 2/5 on pitch classes 0–3 and 3/5 on pitch
class 4; its similarity with the `C:cluster7` template is exactly 4/5,
between `detection_threshold` and `cluster_threshold`. -/
noncomputable def clusterProbeVector : Fin 12 → ℝ := fun i =>
  if (i : ℕ) ≤ 3 then 2/5 else if (i : ℕ) = 4 then 3/5 else 0

theorem clusterProbe_dot :
    dotProduct12 clusterProbeVector (normalizeVec (vecOfRaw (rawTemplate 0 [0, 1, 2, 3])))
      = 4/5 := by
  have hsqrt : Real.sqrt (4:ℝ) = 2 := by
    rw [show (4:ℝ) = 2^2 by norm_num, Real.sqrt_sq (by norm_num)]
  rw [dotProduct12]
  simp only [normalizeVec, rawCluster7_sumSq, clusterProbeVector, rawCluster7_entries, hsqrt]
  simp +decide only [Fin.sum_univ_succ, Fin.sum_univ_zero]
  norm_num [hsqrt]

/-- C5 counterexample: the `C:cluster7` template survives filtering with
score 4/5, which is above `detection_threshold` (3/4) but strictly below the
stricter `cluster_threshold` (17/20) that the claim says all cluster-category
(cluster, cluster7, cluster9) templates must exceed. -/
theorem C5_counterexample_cluster7_survives :
    ("C:cluster7", (4/5 : ℝ)) ∈ getChordCandidates clusterProbeVector (detection_threshold : ℝ)
    ∧ (4/5 : ℝ) < (cluster_threshold : ℝ) := by
  constructor
  · rw [getChordCandidates, List.mem_insertionSort, List.mem_filterMap]
    refine ⟨("C:cluster7", normalizeVec (vecOfRaw (rawTemplate 0 [0, 1, 2, 3]))), ?_, ?_⟩
    · refine List.mem_map.mpr ⟨("C:cluster7", rawTemplate 0 [0, 1, 2, 3]), ?_, rfl⟩
      refine List.mem_flatMap.mpr ⟨("C", 0), by decide, ?_⟩
      refine List.mem_map.mpr ⟨("cluster7", [0, 1, 2, 3]), by decide, ?_⟩
      rfl
    · rw [candidateScore]
      rw [if_neg (by decide)]
      rw [if_pos (by rw [clusterProbe_dot, detection_threshold]; norm_num)]
      rw [clusterProbe_dot]
  · rw [cluster_threshold]
    norm_num

theorem preferSimplerChord_mem (cands : List String) (c : String)
    (h : preferSimplerChord cands = some c) : c ∈ cands := by
  match cands with
  | [] => exact absurd h (by simp [preferSimplerChord])
  | c0 :: cs =>
      rw [preferSimplerChord, Option.some.injEq] at h
      subst h
      clear * -
      induction cs generalizing c0 with
      | nil => simp
      | cons x xs ih =>
          simp only [List.foldl_cons]
          by_cases hcmp : complexityOf x < complexityOf c0
          · rw [if_pos hcmp]
            rcases List.mem_cons.mp (ih x) with h | h
            · exact List.mem_cons_of_mem _ (List.mem_cons.mpr (Or.inl h))
            · exact List.mem_cons_of_mem _ (List.mem_cons_of_mem _ h)
          · rw [if_neg hcmp]
            rcases List.mem_cons.mp (ih c0) with h | h
            · exact List.mem_cons.mpr (Or.inl h)
            · exact List.mem_cons_of_mem _ (List.mem_cons_of_mem _ h)

/-- `_select_best_chord` returns `"N"` or the name of one of its candidates. -/
theorem selectBestChord_cases (cands : List (String × ℝ)) :
    selectBestChord cands = "N" ∨ ∃ s, (selectBestChord cands, s) ∈ cands := by
  match cands with
  | [] => exact Or.inl rfl
  | [c] => exact Or.inr ⟨c.2, by simp [selectBestChord]⟩
  | c0 :: c1 :: rest =>
      obtain ⟨n0, s0⟩ := c0
      obtain ⟨n1, s1⟩ := c1
      simp only [selectBestChord]
      by_cases hgap : (similarity_threshold : ℝ) < s0 - s1
      · rw [if_pos hgap]
        exact Or.inr ⟨s0, List.mem_cons_self _ _⟩
      · rw [if_neg hgap]
        cases hp : preferSimplerChord [n0, n1] with
        | none => exact absurd hp (by rw [preferSimplerChord]; simp)
        | some c =>
            have hmem := preferSimplerChord_mem _ _ hp
            rw [Option.getD_some]
            simp only [List.mem_cons, List.mem_singleton, List.not_mem_nil, or_false] at hmem
            rcases hmem with rfl | rfl
            · exact Or.inr ⟨s0, List.mem_cons_self _ _⟩
            · exact Or.inr ⟨s1, List.mem_cons_of_mem _ (List.mem_cons_self _ _)⟩

/-- Every non-`"N"` frame label is the name of a bank template. -/
theorem frameLabel_cases (threshold : ℝ) (v : Fin 12 → ℝ) :
    frameLabel threshold v = "N"
      ∨ ∃ t, (frameLabel threshold v, t) ∈ CHORD_TEMPLATES := by
  rw [frameLabel]
  rcases selectBestChord_cases (getChordCandidates (enhanceChromaVector v) threshold) with h | ⟨s, hs⟩
  · exact Or.inl h
  · obtain ⟨t, hmem, -, -⟩ := (getChordCandidates_mem_iff _ _ _ _).mp hs
    exact Or.inr ⟨t, hmem⟩

theorem mostCommon_counts_mem (l : List String) (b : List (String × ℕ)) :
    ∀ p ∈ l.foldl bumpCount b, p.1 ∈ l ∨ p ∈ b := by
  induction l generalizing b with
  | nil => exact fun p hp => Or.inr hp
  | cons x xs ih =>
      intro p hp
      rw [List.foldl_cons] at hp
      rcases ih (bumpCount b x) p hp with h | h
      · exact Or.inl (List.mem_cons_of_mem _ h)
      · -- p came from one bump step on b
        clear hp ih
        induction b with
        | nil =>
            simp only [bumpCount, List.mem_singleton] at h
            subst h
            exact Or.inl (List.mem_cons_self _ _)
        | cons q qs ihb =>
            obtain ⟨qy, qn⟩ := q
            rw [bumpCount] at h
            by_cases hq : qy = x
            · rw [if_pos hq] at h
              rcases List.mem_cons.mp h with h' | h'
              · subst h'
                exact Or.inl (by rw [hq]; exact List.mem_cons_self _ _)
              · exact Or.inr (List.mem_cons_of_mem _ h')
            · rw [if_neg hq] at h
              rcases List.mem_cons.mp h with h' | h'
              · exact Or.inr (by rw [h']; exact List.mem_cons_self _ _)
              · rcases ihb h' with h'' | h''
                · exact Or.inl h''
                · exact Or.inr (List.mem_cons_of_mem _ h'')

theorem countsInOrder_ne_nil (l : List String) (h : l ≠ []) : countsInOrder l ≠ [] := by
  obtain ⟨x, xs, rfl⟩ := List.exists_cons_of_ne_nil h
  rw [countsInOrder, List.foldl_cons]
  have : ∀ (b : List (String × ℕ)) (ys : List String), b ≠ [] → ys.foldl bumpCount b ≠ [] := by
    intro b ys
    induction ys generalizing b with
    | nil => exact fun hb => hb
    | cons y ys' ih =>
        intro hb
        rw [List.foldl_cons]
        refine ih _ ?_
        clear ih
        induction b with
        | nil => simp at hb
        | cons q qs ihb =>
            obtain ⟨qy, qn⟩ := q
            rw [bumpCount]
            split <;> simp
  exact this _ _ (by simp [bumpCount])

theorem foldl_pickMax_mem (l : List (String × ℕ)) (b : String × ℕ) :
    l.foldl (fun best p => if best.2 < p.2 then p else best) b ∈ b :: l := by
  induction l generalizing b with
  | nil => simp
  | cons x xs ih =>
      rw [List.foldl_cons]
      by_cases hc : b.2 < x.2
      · rw [if_pos hc]
        rcases List.mem_cons.mp (ih x) with h | h
        · rw [h]; simp
        · exact List.mem_cons_of_mem _ (List.mem_cons_of_mem _ h)
      · rw [if_neg hc]
        rcases List.mem_cons.mp (ih b) with h | h
        · rw [h]; simp
        · exact List.mem_cons_of_mem _ (List.mem_cons_of_mem _ h)

theorem foldl_pickMax_count (l : List (String × ℕ)) (b : String × ℕ) :
    b.2 ≤ (l.foldl (fun best p => if best.2 < p.2 then p else best) b).2 := by
  induction l generalizing b with
  | nil => exact le_refl _
  | cons x xs ih =>
      rw [List.foldl_cons]
      by_cases hc : b.2 < x.2
      · rw [if_pos hc]
        exact le_of_lt (lt_of_lt_of_le hc (ih x))
      · rw [if_neg hc]
        exact ih b

theorem bumpCount_counts_pos (l : List String) :
    ∀ p ∈ countsInOrder l, 1 ≤ p.2 := by
  suffices h : ∀ (b : List (String × ℕ)), (∀ p ∈ b, 1 ≤ p.2) →
      ∀ p ∈ l.foldl bumpCount b, 1 ≤ p.2 by
    exact h [] (by simp)
  induction l with
  | nil => exact fun b hb p hp => hb p hp
  | cons x xs ih =>
      intro b hb p hp
      rw [List.foldl_cons] at hp
      refine ih (bumpCount b x) ?_ p hp
      clear hp ih
      induction b with
      | nil =>
          intro q hq
          simp only [bumpCount, List.mem_singleton] at hq
          rw [hq]
      | cons r rs ihb =>
          intro q hq
          obtain ⟨ry, rn⟩ := r
          rw [bumpCount] at hq
          by_cases hr : ry = x
          · rw [if_pos hr] at hq
            rcases List.mem_cons.mp hq with h' | h'
            · rw [h']; omega
            · exact hb q (List.mem_cons_of_mem _ h')
          · rw [if_neg hr] at hq
            rcases List.mem_cons.mp hq with h' | h'
            · rw [h']
              exact hb (ry, rn) (List.mem_cons_self _ _)
            · exact ihb (fun p hp => hb p (List.mem_cons_of_mem _ hp)) q h'

/-- The majority label of a non-empty buffer occurs in the buffer. -/
theorem mostCommon_mem (l : List String) (h : l ≠ []) : mostCommon l ∈ l := by
  rw [mostCommon]
  rcases List.mem_cons.mp (foldl_pickMax_mem (countsInOrder l) ("", 0)) with hm | hm
  · exfalso
    obtain ⟨q, qs, hq⟩ := List.exists_cons_of_ne_nil (countsInOrder_ne_nil l h)
    have h1 : 1 ≤ q.2 := bumpCount_counts_pos l q (by rw [hq]; exact List.mem_cons_self _ _)
    have h2 : q.2 ≤ ((countsInOrder l).foldl
        (fun best p => if best.2 < p.2 then p else best) ("", 0)).2 := by
      rw [hq, List.foldl_cons]
      by_cases hc : (("", 0) : String × ℕ).2 < q.2
      · rw [if_pos hc]
        exact foldl_pickMax_count qs q
      · exact absurd (by omega : (("", 0) : String × ℕ).2 < q.2) hc
    rw [hm] at h2
    omega
  · rcases mostCommon_counts_mem l [] _ hm with h' | h'
    · exact h'
    · exact absurd h' (by simp)

/-- Labels of majority votes come from the input label stream. -/
theorem majorityStream_mem (w : ℕ) (hw : 1 ≤ w) (labels : List String) :
    ∀ m ∈ majorityStream w labels, m ∈ labels := by
  intro m hm
  rw [majorityStream, List.mem_map] at hm
  obtain ⟨i, hi, rfl⟩ := hm
  rw [List.mem_range] at hi
  have hlen : ((labels.drop i).take w).length = w := by
    rw [List.length_take, List.length_drop]
    omega
  have hne : (labels.drop i).take w ≠ [] := by
    intro hcontra
    rw [hcontra] at hlen
    simp at hlen
    omega
  have := mostCommon_mem _ hne
  exact List.mem_of_mem_drop (List.mem_of_mem_take this)

theorem rle_fst_mem (l : List String) : ∀ p ∈ rle l, p.1 ∈ l := by
  induction l using List.reverseRecOn with
  | nil => simp [rle]
  | append_singleton xs x ih =>
      intro p hp
      rw [rle_concat, rleStep] at hp
      rcases hlast : (rle xs).getLast? with _ | q
      · rw [hlast] at hp
        simp only [List.mem_singleton] at hp
        rw [hp]
        simp
      · obtain ⟨qy, qn⟩ := q
        simp only [hlast] at hp
        by_cases hq : qy = x
        · rw [if_pos hq] at hp
          rcases List.mem_append.mp hp with h' | h'
          · exact List.mem_append_left _ (ih p (List.mem_of_mem_dropLast h'))
          · simp only [List.mem_singleton] at h'
            rw [h']
            simp only
            rw [hq]
            simp
        · rw [if_neg hq] at hp
          rcases List.mem_append.mp hp with h' | h'
          · exact List.mem_append_left _ (ih p h')
          · simp only [List.mem_singleton] at h'
            rw [h']
            simp

/-- C10: every run emitted by `identify_chords` carries either the sentinel
`"N"` or the name of a template in the bank; every bank name has the shape
`root ++ ":" ++ type`, so it contains a colon and split-on-colon parsing of
any emitted non-`"N"` label succeeds. -/
theorem C10_emitted_labels_well_formed (threshold : ℝ) (minDur w : ℕ) (hw : 1 ≤ w)
    (chroma : List (Fin 12 → ℝ)) :
    ∀ p ∈ identifyChords threshold minDur w chroma,
      p.1 = "N" ∨ ((∃ t, (p.1, t) ∈ CHORD_TEMPLATES) ∧ ':' ∈ p.1.data) := by
  intro p hp
  rw [identifyChords, smoothSegments_eq_filter_rle w minDur hw] at hp
  have hp1 := rle_fst_mem _ p (List.mem_of_mem_filter hp)
  have hp2 := majorityStream_mem w hw _ _ hp1
  rw [List.mem_map] at hp2
  obtain ⟨col, -, hcol⟩ := hp2
  rcases frameLabel_cases threshold col with h | ⟨t, ht⟩
  · exact Or.inl (by rw [← hcol, h])
  · refine Or.inr ⟨⟨t, by rw [← hcol]; exact ht⟩, ?_⟩
    rw [← hcol]
    clear hp hp1
    rw [CHORD_TEMPLATES, List.mem_map] at ht
    obtain ⟨⟨nm, raw⟩, hmem, heq⟩ := ht
    rw [rawTemplates, List.mem_flatMap] at hmem
    obtain ⟨ri, -, hmem2⟩ := hmem
    rw [List.mem_map] at hmem2
    obtain ⟨ct, -, heq2⟩ := hmem2
    have hname : frameLabel threshold col = ri.1 ++ ":" ++ ct.1 := by
      have h1 : nm = ri.1 ++ ":" ++ ct.1 := (congrArg Prod.fst heq2).symm
      have h2 : frameLabel threshold col = nm := (congrArg Prod.fst heq).symm
      rw [h2, h1]
    rw [hname, String.data_append, String.data_append]
    refine List.mem_append_left _ (List.mem_append_right _ ?_)
    decide

theorem enhanceChromaVector_zero : ∀ i, enhanceChromaVector (fun _ => 0) i = 0 := by
  intro i
  simp only [enhanceChromaVector, normalizeVec, mul_zero, ite_self]
  simp

theorem dotProduct12_zero_left (t : Fin 12 → ℝ) :
    dotProduct12 (enhanceChromaVector (fun _ => 0)) t = 0 := by
  rw [dotProduct12]
  refine Finset.sum_eq_zero (fun i _ => ?_)
  rw [enhanceChromaVector_zero i, zero_mul]

theorem getChordCandidates_zero :
    getChordCandidates (enhanceChromaVector (fun _ => 0)) (detection_threshold : ℝ) = [] := by
  rw [getChordCandidates]
  have h1 : CHORD_TEMPLATES.filterMap
      (candidateScore (enhanceChromaVector fun _ => 0) (detection_threshold : ℝ)) = [] := by
    rw [List.filterMap_eq_nil_iff]
    intro p _
    rw [candidateScore, dotProduct12_zero_left p.2]
    by_cases hc : strEndsWith p.1 ":cluster"
    · rw [if_pos hc, if_neg (by rw [cluster_threshold]; push_cast; norm_num)]
    · rw [if_neg hc, if_neg (by rw [detection_threshold]; push_cast; norm_num)]
  rw [h1]
  rfl

theorem frameLabel_zero : frameLabel (detection_threshold : ℝ) (fun _ => 0) = "N" := by
  rw [frameLabel, getChordCandidates_zero]
  rfl

set_option maxRecDepth 40000 in
/-- On 40 frames of silence every frame label is `"N"` and the smoother emits
a single 32-frame `"N"` run. -/
theorem identifyChords_zero_eval :
    identifyChords (detection_threshold : ℝ) 15 9 (List.replicate 40 (fun _ => (0:ℝ)))
      = [("N", 32)] := by
  rw [identifyChords, List.map_replicate, frameLabel_zero]
  decide

set_option maxRecDepth 40000 in
/-- Witness for C10 at a concrete emitted run. -/
theorem C10_emitted_labels_well_formed_witness :
    1 ≤ 9
    ∧ ("N", 32) ∈ identifyChords (detection_threshold : ℝ) 15 9
        (List.replicate 40 (fun _ => (0:ℝ)))
    ∧ ((("N", 32) : String × ℕ).1 = "N"
      ∨ ((∃ t, ((("N", 32) : String × ℕ).1, t) ∈ CHORD_TEMPLATES)
        ∧ ':' ∈ ((("N", 32) : String × ℕ).1).data)) := by
  refine ⟨by norm_num, ?_, ?_⟩
  · rw [identifyChords_zero_eval]
    exact List.mem_cons_self _ _
  · exact C10_emitted_labels_well_formed (detection_threshold : ℝ) 15 9 (by norm_num)
      (List.replicate 40 (fun _ => (0:ℝ))) ("N", 32)
      (by rw [identifyChords_zero_eval]; exact List.mem_cons_self _ _)

/-! ### End-to-end C-major scenario (C3): exact score bookkeeping

Feeding the normalized C-major template as every chroma column, the enhanced
vector is `(24, 0, 0, 0, 24, 0, 0, 21, 0, 0, 0, 0) / √1593`, so every
template's similarity is `tmplA/ (√1593·√tmplK)` with the two integers
`tmplA` (weighted numerator ×20) and `tmplK` (occupied pitch classes)
computable on the raw 0/1 templates. All threshold and sorting comparisons
then mirror into decidable natural-number comparisons. -/

noncomputable def cmajColumn : Fin 12 → ℝ := normalizeVec (vecOfRaw (rawTemplate 0 [0, 4, 7]))

theorem rawCmaj_entries :
    ∀ i : Fin 12, vecOfRaw (rawTemplate 0 [0, 4, 7]) i
      = if i = 0 ∨ i = 4 ∨ i = 7 then 1 else 0 := by
  intro i
  rw [rawTemplate_apply]
  fin_cases i <;> simp

theorem rawCmaj_sumSq : ∑ j : Fin 12, vecOfRaw (rawTemplate 0 [0, 4, 7]) j ^ 2 = 3 := by
  simp only [rawCmaj_entries]
  simp +decide only [Fin.sum_univ_succ, Fin.sum_univ_zero]
  norm_num

theorem cmajColumn_apply (i : Fin 12) :
    cmajColumn i = (if i = 0 ∨ i = 4 ∨ i = 7 then (1:ℝ) else 0) / Real.sqrt 3 := by
  simp only [cmajColumn, normalizeVec]
  rw [rawCmaj_sumSq, rawCmaj_entries]

/-- The weighted (pre-normalization) enhanced C-major column. -/
noncomputable def wCmaj : Fin 12 → ℝ := fun i =>
  (if i = 0 ∨ i = 4 then (6/5 : ℝ) else if i = 7 then 21/20 else 0) / Real.sqrt 3

theorem wCmaj_pointwise : ∀ i : Fin 12,
    (if i = 0 then (bass_weight : ℝ) * cmajColumn i
     else if i = 4 then (bass_weight : ℝ) * cmajColumn i
     else if i = 7 then (harmonic_weight : ℝ) * cmajColumn i
     else cmajColumn i) = wCmaj i := by
  intro i
  fin_cases i <;>
    simp +decide [cmajColumn_apply, wCmaj, bass_weight, harmonic_weight, mul_div_assoc] <;>
    ring

theorem wCmaj_sumSq : ∑ j : Fin 12, wCmaj j ^ 2 = 531/400 := by
  have h3 : Real.sqrt 3 ^ 2 = 3 := Real.sq_sqrt (by norm_num)
  simp only [wCmaj, div_pow, h3]
  rw [← Finset.sum_div]
  have hnum : ∑ j : Fin 12,
      (if j = 0 ∨ j = 4 then (6/5 : ℝ) else if j = 7 then 21/20 else 0) ^ 2 = 1593/400 := by
    simp +decide only [Fin.sum_univ_succ, Fin.sum_univ_zero]
    norm_num
  rw [hnum]
  norm_num

theorem sqrt3_mul_sqrt531 : Real.sqrt 3 * Real.sqrt 531 = Real.sqrt 1593 := by
  rw [← Real.sqrt_mul (by norm_num : (0:ℝ) ≤ 3)]
  norm_num

theorem sqrt_531_400 : Real.sqrt ((531:ℝ)/400) = Real.sqrt 531 / 20 := by
  rw [Real.sqrt_div (by norm_num : (0:ℝ) ≤ 531)]
  rw [show (400:ℝ) = 20^2 by norm_num, Real.sqrt_sq (by norm_num)]

theorem div_sqrt_helper (q : ℝ) :
    (q / Real.sqrt 3) / (Real.sqrt 531 / 20) = (20 * q) / Real.sqrt 1593 := by
  have h3 : Real.sqrt 3 ≠ 0 := by positivity
  have h531 : Real.sqrt 531 ≠ 0 := by positivity
  rw [← sqrt3_mul_sqrt531]
  field_simp
  ring

/-- Closed form of the enhanced C-major column. -/
theorem enhance_cmaj : ∀ i : Fin 12, enhanceChromaVector cmajColumn i
    = (if i = 0 ∨ i = 4 then (24:ℝ) else if i = 7 then 21 else 0) / Real.sqrt 1593 := by
  intro i
  simp only [enhanceChromaVector, normalizeVec]
  simp only [wCmaj_pointwise]
  rw [wCmaj_sumSq, sqrt_531_400]
  simp only [wCmaj]
  rw [div_sqrt_helper]
  fin_cases i <;> norm_num

/-- 20× the weighted numerator of a raw template's similarity with the
enhanced C-major column. -/
def tmplA (t : List ℕ) : ℕ := 24 * t.getD 0 0 + 24 * t.getD 4 0 + 21 * t.getD 7 0

/-- Number of occupied pitch classes of a raw template (= its squared norm). -/
def tmplK (t : List ℕ) : ℕ := t.sum

theorem tmplK_cast (ri : ℕ) (ivs : List ℕ) :
    ((tmplK (rawTemplate ri ivs)) : ℝ)
      = ∑ j : Fin 12, vecOfRaw (rawTemplate ri ivs) j ^ 2 := by
  have hL : tmplK (rawTemplate ri ivs)
      = ∑ j : Fin 12, (if ivs.any (fun iv => (ri + iv) % 12 == (j:ℕ)) then 1 else 0 : ℕ) := by
    rw [tmplK, rawTemplate, List.sum_ofFn]
  rw [hL]
  push_cast
  refine Finset.sum_congr rfl (fun j _ => ?_)
  rw [rawTemplate_apply]
  split <;> norm_num

theorem tmplA_cast (ri : ℕ) (ivs : List ℕ) :
    ((tmplA (rawTemplate ri ivs)) : ℝ)
      = 24 * vecOfRaw (rawTemplate ri ivs) 0 + 24 * vecOfRaw (rawTemplate ri ivs) 4
        + 21 * vecOfRaw (rawTemplate ri ivs) 7 := by
  rw [tmplA]
  push_cast
  rw [vecOfRaw, vecOfRaw, vecOfRaw]
  norm_num [show ((4 : Fin 12) : ℕ) = 4 from rfl, show ((7 : Fin 12) : ℕ) = 7 from rfl]

/-- Every template's similarity with the enhanced C-major column, in terms of
the integer mirrors. -/
theorem dot_enhancedCmaj (ri : ℕ) (ivs : List ℕ) :
    dotProduct12 (enhanceChromaVector cmajColumn) (normalizeVec (vecOfRaw (rawTemplate ri ivs)))
      = (tmplA (rawTemplate ri ivs) : ℝ)
          / (Real.sqrt 1593 * Real.sqrt (tmplK (rawTemplate ri ivs))) := by
  have hK := tmplK_cast ri ivs
  rw [dotProduct12]
  have hstep : ∀ i : Fin 12,
      enhanceChromaVector cmajColumn i * normalizeVec (vecOfRaw (rawTemplate ri ivs)) i
      = ((if i = 0 ∨ i = 4 then (24:ℝ) else if i = 7 then 21 else 0)
          * vecOfRaw (rawTemplate ri ivs) i)
        / (Real.sqrt 1593 * Real.sqrt (tmplK (rawTemplate ri ivs))) := by
    intro i
    rw [enhance_cmaj i]
    simp only [normalizeVec]
    rw [← hK, div_mul_div_comm]
  simp only [hstep]
  rw [← Finset.sum_div]
  congr 1
  rw [tmplA_cast]
  rw [show (Finset.univ : Finset (Fin 12))
      = insert 0 (insert 4 {7} ∪ (Finset.univ.filter (fun i => i ≠ 0 ∧ i ≠ 4 ∧ i ≠ 7)))
      from by decide]
  rw [Finset.sum_insert (by decide), Finset.sum_union (by decide),
    Finset.sum_insert (by decide), Finset.sum_singleton]
  have hoff : ∑ i in Finset.univ.filter (fun i : Fin 12 => i ≠ 0 ∧ i ≠ 4 ∧ i ≠ 7),
      (if i = 0 ∨ i = 4 then (24:ℝ) else if i = 7 then 21 else 0)
        * vecOfRaw (rawTemplate ri ivs) i = 0 := by
    refine Finset.sum_eq_zero (fun x hx => ?_)
    rw [Finset.mem_filter] at hx
    obtain ⟨-, h0, h4, h7⟩ := hx
    rw [if_neg (by simp [h0, h4]), if_neg h7, zero_mul]
  rw [hoff]
  norm_num
  rw [if_neg (by decide)]
  ring

/-- Comparing a similarity `A/(√1593·√k)` with a nonnegative bound mirrors
into a polynomial inequality. -/
theorem score_le_iff (A k : ℕ) (hk : 1 ≤ k) (c : ℝ) (hc : 0 ≤ c) :
    c ≤ (A : ℝ) / (Real.sqrt 1593 * Real.sqrt k)
      ↔ c^2 * (1593 * k) ≤ (A:ℝ)^2 := by
  have hkpos : (0:ℝ) < k := by exact_mod_cast hk
  have hd : (0:ℝ) < Real.sqrt 1593 * Real.sqrt k := by positivity
  rw [le_div_iff hd]
  have hsq : (c * (Real.sqrt 1593 * Real.sqrt k))^2 = c^2 * (1593 * k) := by
    rw [mul_pow, mul_pow, Real.sq_sqrt (by norm_num : (0:ℝ) ≤ 1593),
      Real.sq_sqrt (le_of_lt hkpos)]
  constructor
  · intro h
    rw [← hsq]
    exact pow_le_pow_left (by positivity) h 2
  · intro h
    have h2 : (c * (Real.sqrt 1593 * Real.sqrt k))^2 ≤ ((A:ℝ))^2 := by
      rw [hsq]
      exact h
    have h3 := Real.sqrt_le_sqrt h2
    rwa [Real.sqrt_sq (by positivity), Real.sqrt_sq (Nat.cast_nonneg A)] at h3

/-- Comparing two survivor scores mirrors into a natural-number inequality. -/
theorem score_pair_le_iff (A1 k1 A2 k2 : ℕ) (hk1 : 1 ≤ k1) (hk2 : 1 ≤ k2) :
    ((A2 : ℝ) / (Real.sqrt 1593 * Real.sqrt k2)
        ≤ (A1 : ℝ) / (Real.sqrt 1593 * Real.sqrt k1))
      ↔ A2^2 * k1 ≤ A1^2 * k2 := by
  have hk1' : (0:ℝ) < k1 := by exact_mod_cast hk1
  have hk2' : (0:ℝ) < k2 := by exact_mod_cast hk2
  have hd1 : (0:ℝ) < Real.sqrt 1593 * Real.sqrt k1 := by positivity
  have hd2 : (0:ℝ) < Real.sqrt 1593 * Real.sqrt k2 := by positivity
  rw [div_le_div_iff hd2 hd1]
  constructor
  · intro h
    have h2 := pow_le_pow_left (by positivity) h 2
    rw [mul_pow, mul_pow, mul_pow, mul_pow,
      Real.sq_sqrt (by norm_num : (0:ℝ) ≤ 1593),
      Real.sq_sqrt hk1'.le, Real.sq_sqrt hk2'.le] at h2
    have h3 : (A2:ℝ)^2 * k1 ≤ (A1:ℝ)^2 * k2 := by nlinarith
    exact_mod_cast h3
  · intro h
    have h3 : (A2:ℝ)^2 * k1 ≤ (A1:ℝ)^2 * k2 := by exact_mod_cast h
    have h2 : ((A2:ℝ) * (Real.sqrt 1593 * Real.sqrt k1))^2
        ≤ ((A1:ℝ) * (Real.sqrt 1593 * Real.sqrt k2))^2 := by
      rw [mul_pow, mul_pow, mul_pow, mul_pow,
        Real.sq_sqrt (by norm_num : (0:ℝ) ≤ 1593),
        Real.sq_sqrt hk1'.le, Real.sq_sqrt hk2'.le]
      nlinarith
    have h4 := Real.sqrt_le_sqrt h2
    rwa [Real.sqrt_sq (by positivity), Real.sqrt_sq (by positivity)] at h4

/-- A template's similarity with the enhanced C-major column. -/
noncomputable def scoreR (t : List ℕ) : ℝ :=
  (tmplA t : ℝ) / (Real.sqrt 1593 * Real.sqrt (tmplK t))

/-- Decidable mirror of the per-template threshold test against the enhanced
C-major column: `3/4 ≤ A/√(1593k) ↔ 14337k ≤ 16A²` and
`17/20 ≤ A/√(1593k) ↔ 460377k ≤ 400A²`. -/
def passQ (p : String × List ℕ) : Bool :=
  if strEndsWith p.1 ":cluster" then decide (460377 * tmplK p.2 ≤ 400 * (tmplA p.2)^2)
  else decide (14337 * tmplK p.2 ≤ 16 * (tmplA p.2)^2)

/-- Decidable mirror of descending score comparison between templates. -/
def scoreGE (p q : String × List ℕ) : Prop :=
  tmplA q.2 ^ 2 * tmplK p.2 ≤ tmplA p.2 ^ 2 * tmplK q.2

instance : DecidableRel scoreGE := fun p q => Nat.decLe _ _

theorem tmplK_pos (ri : ℕ) (ivs : List ℕ) (hne : ivs ≠ []) :
    1 ≤ tmplK (rawTemplate ri ivs) := by
  obtain ⟨iv0, rest, rfl⟩ := List.exists_cons_of_ne_nil hne
  have hL : tmplK (rawTemplate ri (iv0 :: rest))
      = ∑ j : Fin 12,
          (if (iv0 :: rest).any (fun iv => (ri + iv) % 12 == (j:ℕ)) then 1 else 0 : ℕ) := by
    rw [tmplK, rawTemplate, List.sum_ofFn]
  rw [hL]
  have hidx : ((iv0 :: rest).any (fun iv => (ri + iv) % 12
      == ((⟨(ri + iv0) % 12, Nat.mod_lt _ (by norm_num)⟩ : Fin 12) : ℕ))) = true := by
    simp [List.any_cons]
  have hle := Finset.single_le_sum (f := fun j : Fin 12 =>
      (if (iv0 :: rest).any (fun iv => (ri + iv) % 12 == (j:ℕ)) then 1 else 0 : ℕ))
    (fun j _ => Nat.zero_le _)
    (Finset.mem_univ (⟨(ri + iv0) % 12, Nat.mod_lt _ (by norm_num)⟩ : Fin 12))
  simpa [hidx] using hle

theorem rawTemplates_shape : ∀ p ∈ rawTemplates, ∃ ri ivs, p.2 = rawTemplate ri ivs ∧ ivs ≠ [] := by
  intro p hp
  rw [rawTemplates, List.mem_flatMap] at hp
  obtain ⟨r, _, hp2⟩ := hp
  rw [List.mem_map] at hp2
  obtain ⟨ct, hct, rfl⟩ := hp2
  exact ⟨r.2, ct.2, rfl, chordTypes_nonempty ct hct⟩

theorem rawTemplates_k_pos : ∀ p ∈ rawTemplates, 1 ≤ tmplK p.2 := by
  intro p hp
  obtain ⟨ri, ivs, hshape, hne⟩ := rawTemplates_shape p hp
  rw [hshape]
  exact tmplK_pos ri ivs hne

theorem detection_mirror (A k : ℕ) (hk : 1 ≤ k) :
    (((detection_threshold : ℚ) : ℝ) ≤ (A : ℝ) / (Real.sqrt 1593 * Real.sqrt k))
      ↔ 14337 * k ≤ 16 * A^2 := by
  have h1 : ((detection_threshold : ℚ) : ℝ) = 3/4 := by
    rw [detection_threshold]
    norm_num
  rw [h1, score_le_iff A k hk (3/4) (by norm_num)]
  constructor
  · intro h
    have h2 : (14337 * k : ℝ) ≤ 16 * (A:ℝ)^2 := by push_cast; nlinarith
    exact_mod_cast h2
  · intro h
    have h2 : (14337 * k : ℝ) ≤ 16 * (A:ℝ)^2 := by exact_mod_cast h
    push_cast
    nlinarith

theorem cluster_mirror (A k : ℕ) (hk : 1 ≤ k) :
    (((cluster_threshold : ℚ) : ℝ) ≤ (A : ℝ) / (Real.sqrt 1593 * Real.sqrt k))
      ↔ 460377 * k ≤ 400 * A^2 := by
  have h1 : ((cluster_threshold : ℚ) : ℝ) = 17/20 := by
    rw [cluster_threshold]
    norm_num
  rw [h1, score_le_iff A k hk (17/20) (by norm_num)]
  constructor
  · intro h
    have h2 : (460377 * k : ℝ) ≤ 400 * (A:ℝ)^2 := by push_cast; nlinarith
    exact_mod_cast h2
  · intro h
    have h2 : (460377 * k : ℝ) ≤ 400 * (A:ℝ)^2 := by exact_mod_cast h
    push_cast
    nlinarith

theorem candidateScore_cmaj_eq (p : String × List ℕ) (hp : p ∈ rawTemplates) :
    candidateScore (enhanceChromaVector cmajColumn) ((detection_threshold : ℚ) : ℝ)
        (p.1, normalizeVec (vecOfRaw p.2))
      = if passQ p then some (p.1, scoreR p.2) else none := by
  obtain ⟨ri, ivs, hshape, hne⟩ := rawTemplates_shape p hp
  have hk : 1 ≤ tmplK p.2 := by rw [hshape]; exact tmplK_pos ri ivs hne
  have hdot : dotProduct12 (enhanceChromaVector cmajColumn) (normalizeVec (vecOfRaw p.2))
      = scoreR p.2 := by
    rw [hshape, dot_enhancedCmaj ri ivs, scoreR]
  have hscore : scoreR p.2 = (tmplA p.2 : ℝ) / (Real.sqrt 1593 * Real.sqrt (tmplK p.2)) := rfl
  rw [candidateScore]
  simp only [hdot]
  rw [passQ]
  by_cases hc : strEndsWith p.1 ":cluster"
  · rw [if_pos hc, if_pos hc]
    have hiff : (((cluster_threshold : ℚ) : ℝ) ≤ scoreR p.2)
        ↔ 460377 * tmplK p.2 ≤ 400 * (tmplA p.2)^2 := by
      rw [hscore]
      exact cluster_mirror _ _ hk
    by_cases ht : 460377 * tmplK p.2 ≤ 400 * (tmplA p.2)^2
    · rw [if_pos (hiff.mpr ht), if_pos (by simpa using ht)]
    · rw [if_neg (fun hcon => ht (hiff.mp hcon)), if_neg (by simpa using ht)]
  · rw [if_neg hc, if_neg hc]
    have hiff : (((detection_threshold : ℚ) : ℝ) ≤ scoreR p.2)
        ↔ 14337 * tmplK p.2 ≤ 16 * (tmplA p.2)^2 := by
      rw [hscore]
      exact detection_mirror _ _ hk
    by_cases ht : 14337 * tmplK p.2 ≤ 16 * (tmplA p.2)^2
    · rw [if_pos (hiff.mpr ht), if_pos (by simpa using ht)]
    · rw [if_neg (fun hcon => ht (hiff.mp hcon)), if_neg (by simpa using ht)]

theorem filterMap_eq_map_filter {α β : Type} (fm : α → Option β) (g : α → β) (b : α → Bool)
    (l : List α) (h : ∀ p ∈ l, fm p = if b p then some (g p) else none) :
    l.filterMap fm = (l.filter b).map g := by
  induction l with
  | nil => rfl
  | cons x xs ih =>
      rw [List.filterMap_cons, List.filter_cons]
      by_cases hb : b x
      · rw [h x (List.mem_cons_self _ _), if_pos hb, if_pos hb, List.map_cons,
          ih (fun p hp => h p (List.mem_cons_of_mem _ hp))]
      · rw [h x (List.mem_cons_self _ _), if_neg hb, if_neg hb,
          ih (fun p hp => h p (List.mem_cons_of_mem _ hp))]

theorem orderedInsert_map_comm {α β : Type} (f : α → β) (r : β → β → Prop)
    (rq : α → α → Prop) [DecidableRel r] [DecidableRel rq] (x : α) (l : List α)
    (h : ∀ c ∈ l, (r (f x) (f c) ↔ rq x c)) :
    (l.map f).orderedInsert r (f x) = (l.orderedInsert rq x).map f := by
  induction l with
  | nil => rfl
  | cons c cs ih =>
      simp only [List.map_cons, List.orderedInsert]
      by_cases hrq : rq x c
      · rw [if_pos ((h c (List.mem_cons_self _ _)).mpr hrq), if_pos hrq, List.map_cons,
          List.map_cons]
      · rw [if_neg (fun hcon => hrq ((h c (List.mem_cons_self _ _)).mp hcon)), if_neg hrq,
          List.map_cons, ih (fun d hd => h d (List.mem_cons_of_mem _ hd))]

theorem insertionSort_map_comm {α β : Type} (f : α → β) (r : β → β → Prop)
    (rq : α → α → Prop) [DecidableRel r] [DecidableRel rq] (l : List α)
    (h : ∀ a ∈ l, ∀ c ∈ l, (r (f a) (f c) ↔ rq a c)) :
    (l.map f).insertionSort r = (l.insertionSort rq).map f := by
  induction l with
  | nil => rfl
  | cons x xs ih =>
      simp only [List.map_cons, List.insertionSort]
      rw [ih (fun a ha c hc =>
        h a (List.mem_cons_of_mem _ ha) c (List.mem_cons_of_mem _ hc))]
      exact orderedInsert_map_comm f r rq x (xs.insertionSort rq)
        (fun c hc => h x (List.mem_cons_self _ _) c
          (List.mem_cons_of_mem _ ((List.mem_insertionSort rq).mp hc)))

/-- The candidate list for the enhanced C-major column, mirrored onto the
decidable integer computations. -/
theorem getChordCandidates_cmaj :
    getChordCandidates (enhanceChromaVector cmajColumn) ((detection_threshold : ℚ) : ℝ)
      = ((rawTemplates.filter passQ).insertionSort scoreGE).map (fun p => (p.1, scoreR p.2)) := by
  rw [getChordCandidates, CHORD_TEMPLATES, List.filterMap_map]
  have hpt : ∀ p ∈ rawTemplates,
      (candidateScore (enhanceChromaVector cmajColumn) ((detection_threshold : ℚ) : ℝ)
        ∘ fun q => (q.1, normalizeVec (vecOfRaw q.2))) p
      = if passQ p then some ((fun q => (q.1, scoreR q.2)) p) else none := by
    intro p hp
    exact candidateScore_cmaj_eq p hp
  rw [filterMap_eq_map_filter _ _ passQ rawTemplates hpt]
  refine insertionSort_map_comm _ _ _ _ (fun a ha c hc => ?_)
  have hka := rawTemplates_k_pos a (List.mem_of_mem_filter ha)
  have hkc := rawTemplates_k_pos c (List.mem_of_mem_filter hc)
  exact score_pair_le_iff (tmplA a.2) (tmplK a.2) (tmplA c.2) (tmplK c.2) hka hkc

set_option maxRecDepth 100000 in
set_option maxHeartbeats 4000000 in
/-- The two top-ranked survivors of the C-major frame, computed on the
integer mirror: the tied maxima are `C:maj`, `C:maj/3`, `C:maj/5`,
`C:petrushka` (all score 69/√(1593·3)), in bank order by sort stability. -/
theorem sortedSurvivors_take2 :
    ((rawTemplates.filter passQ).insertionSort scoreGE).take 2
      = [("C:maj", rawTemplate 0 [0, 4, 7]), ("C:maj/3", rawTemplate 0 [4, 7, 12])] := by
  decide

theorem scoreR_c3_tie :
    scoreR (rawTemplate 0 [0, 4, 7]) = scoreR (rawTemplate 0 [4, 7, 12]) := by
  rw [scoreR, scoreR,
    show tmplA (rawTemplate 0 [0, 4, 7]) = 69 from by decide,
    show tmplA (rawTemplate 0 [4, 7, 12]) = 69 from by decide,
    show tmplK (rawTemplate 0 [0, 4, 7]) = 3 from by decide,
    show tmplK (rawTemplate 0 [4, 7, 12]) = 3 from by decide]

/-- The per-frame label of the C-major column is `C:maj`: the top two
candidates tie with score 69/√4779, so the margin test fails and the
complexity tie-break picks the simpler `maj` over the inversion `maj/3`. -/
theorem frameLabel_cmaj : frameLabel ((detection_threshold : ℚ) : ℝ) cmajColumn = "C:maj" := by
  rw [frameLabel, getChordCandidates_cmaj]
  rw [show (rawTemplates.filter passQ).insertionSort scoreGE
      = [("C:maj", rawTemplate 0 [0, 4, 7]), ("C:maj/3", rawTemplate 0 [4, 7, 12])]
        ++ ((rawTemplates.filter passQ).insertionSort scoreGE).drop 2 from by
    rw [← sortedSurvivors_take2, List.take_append_drop]]
  rw [List.map_append]
  simp only [List.map_cons, List.map_nil]
  rw [List.cons_append, List.cons_append, List.nil_append]
  simp only [selectBestChord]
  rw [if_neg (by
    rw [scoreR_c3_tie, sub_self]
    rw [similarity_threshold]
    push_cast
    norm_num)]
  decide

set_option maxRecDepth 100000 in
/-- `identify_chords` on 40 frames of the C-major column: one `C:maj` run of
32 frames (the 9-frame majority window eats the first 8 frames). -/
theorem identifyChords_cmaj_eval :
    identifyChords ((detection_threshold : ℚ) : ℝ) min_duration_frames window_size
        (List.replicate 40 cmajColumn)
      = [("C:maj", 32)] := by
  rw [identifyChords, List.map_replicate, frameLabel_cmaj]
  decide

/-- C3 counterexample: the emitted segment spans 32 frames, not 40 as
claimed — majority voting only starts once the 9-frame window fills, so the
run misses `window_size - 1 = 8` frames. -/
theorem C3_counterexample_frame_count :
    identifyChords ((detection_threshold : ℚ) : ℝ) min_duration_frames window_size
        (List.replicate 40 cmajColumn)
      = [("C:maj", 32)]
    ∧ (32 : ℕ) ≠ 40 :=
  ⟨identifyChords_cmaj_eval, by decide⟩

/-- C3 (amended): 40 frames of the bank's normalized C-major template,
through `identify_chords` (default configuration) and
`convert_frames_to_time` at the default 22050/512 settings, yield exactly one
segment: chord `C:maj`, start time 0, and frame count 32 = 40 − 9 + 1
(duration 32·512/22050 = 8192/11025 seconds), not 40 frames as claimed. -/
theorem C3_cmaj_scenario_segments :
    ("C" ++ ":" ++ "maj", cmajColumn) ∈ CHORD_TEMPLATES
    ∧ convertFramesToTime
        (identifyChords ((detection_threshold : ℚ) : ℝ) min_duration_frames window_size
          (List.replicate 40 cmajColumn))
        chroma_sr hop_length
      = [⟨"C:maj", 0, 8192/11025, 8192/11025⟩] := by
  constructor
  · refine List.mem_map.mpr ⟨("C" ++ ":" ++ "maj", rawTemplate 0 [0, 4, 7]), ?_, rfl⟩
    refine List.mem_flatMap.mpr ⟨("C", 0), by decide, ?_⟩
    exact List.mem_map.mpr ⟨("maj", [0, 4, 7]), by decide, rfl⟩
  · rw [identifyChords_cmaj_eval]
    rw [convertFramesToTime, convertFramesAux, convertFramesAux, chroma_sr, hop_length]
    norm_num

/-! ### Progression mining (`detect_chord_progression`, `_analyze_chord_function`) -/

/-- Accumulate the chord-type suffixes of a progression: a label that is not
`"N"` and contains a colon contributes the text after the first colon; any
other label resets the accumulator (the source's `else: chord_types = []`). -/
def chordTypesOfProg (progression : List String) : List String :=
  progression.foldl
    (fun acc chord =>
      if chord ≠ "N" ∧ ':' ∈ chord.data then acc ++ [(chord.splitOn ":").getD 1 ""]
      else [])
    []

/-- The `common_patterns` table of `_analyze_chord_function`, in dict order.
The source dict literal repeats the key `("maj","maj","min","maj")`; Python
keeps the first position with the last value, so the entry appears once,
first, with value `"I-V-vi-IV (Pop progression)"`. -/
def common_patterns : List (List String × String) :=
  [(["maj", "maj", "min", "maj"], "I-V-vi-IV (Pop progression)"),
   (["maj", "min", "maj", "maj"], "I-ii-V-IV (Major key)"),
   (["maj", "min", "maj"], "I-vi-IV (Major key)"),
   (["min", "maj", "maj"], "vi-IV-V (Major key)"),
   (["maj", "maj", "maj", "maj"], "I-V-vi-IV (Major key)"),
   (["maj", "min", "min", "maj"], "I-vi-ii-V (Jazz turnaround)"),
   (["min", "dim", "maj", "min"], "i-ii-III-iv (Minor key)"),
   (["min", "maj", "min"], "i-III-VII (Minor key)"),
   (["min", "min", "maj", "maj"], "i-iv-III-VII (Minor key)"),
   (["min", "maj", "maj", "min"], "i-III-VII-iv (Minor key)"),
   (["min", "maj", "min", "maj"], "i-VII-vi-III (Minor key)"),
   (["7", "7", "7", "7"], "I7-IV7-V7-IV7 (Blues)"),
   (["7", "7", "7"], "I7-IV7-V7 (Blues)"),
   (["maj7", "min7", "7", "maj7"], "IMaj7-iim7-V7-IMaj7 (Jazz)"),
   (["min7", "7", "maj7"], "iim7-V7-IMaj7 (Jazz ii-V-I)"),
   (["min7", "hdim7", "7", "min7"], "iim7-V7/V-V7-im7 (Jazz minor)")]

/-- `_analyze_chord_function`: first pattern of the table occurring as a
contiguous slice of the chord-type list wins; otherwise cadence checks on the
last two types; otherwise `"Custom Progression"`. -/
def analyze_chord_function (progression : List String) : String :=
  let chord_types := chordTypesOfProg progression
  if chord_types = [] then "Unknown"
  else
    match common_patterns.find? (fun pr => decide (pr.1 <:+: chord_types)) with
    | some pr => pr.2
    | none =>
      if 2 ≤ chord_types.length then
        let lastTwo := chord_types.drop (chord_types.length - 2)
        if lastTwo = ["7", "maj"] ∨ lastTwo = ["maj", "maj"] then "Authentic Cadence"
        else if lastTwo = ["maj", "7"] ∨ lastTwo = ["7", "7"] then "Half Cadence"
        else if lastTwo = ["maj", "min"] ∨ lastTwo = ["min", "maj"] then "Deceptive Cadence"
        else if lastTwo = ["maj", "maj7"] ∨ lastTwo = ["7", "maj7"] then "Jazz Cadence"
        else "Custom Progression"
      else "Custom Progression"

/-- One step of the filter/merge loop at the head of
`detect_chord_progression`. State: segments flushed so far, plus the open
run `(chord, start, end)` if any. -/
def progFilterStep (st : List Segment × Option (String × ℚ × ℚ)) (c : Segment) :
    List Segment × Option (String × ℚ × ℚ) :=
  if strEndsWith c.chord ":cluster" = true ∧ c.duration < min_progression_duration then st
  else if c.duration < min_chord_duration then st
  else
    match st.2 with
    | none => (st.1, some (c.chord, c.start_time, c.end_time))
    | some (ch, s, e) =>
      if c.chord = ch ∧ c.start_time - e < max_chord_gap then
        (st.1, some (ch, s, c.end_time))
      else
        (st.1 ++ [{ chord := ch, start_time := s, end_time := e, duration := e - s }],
         some (c.chord, c.start_time, c.end_time))

/-- Flush the open run at the end of the filter/merge loop. -/
def progFlush : List Segment × Option (String × ℚ × ℚ) → List Segment
  | (acc, none) => acc
  | (acc, some (ch, s, e)) =>
      acc ++ [{ chord := ch, start_time := s, end_time := e, duration := e - s }]

/-- The filter/merge pass of `detect_chord_progression`: drop short chords
(and short cluster chords), merge same-chord neighbours closer than
`max_chord_gap`, recompute durations as `end - start`, flush the final run. -/
def progFilterSeq (l : List Segment) : List Segment :=
  progFlush (l.foldl progFilterStep ([], none))

/-- All windows of `L` consecutive chords (`range(len - (L - 1))` in the
source, for `L ≤ len`). -/
def windowsOf (L : ℕ) (chords : List String) : List (List String) :=
  (List.range (chords.length + 1 - L)).map (fun i => (chords.drop i).take L)

/-- Bump a pattern's count in the insertion-ordered pattern dict. -/
def bumpPattern (acc : List (List String × ℕ)) (p : List String) :
    List (List String × ℕ) :=
  if acc.any (fun q => q.1 = p) then
    acc.map (fun q => if q.1 = p then (q.1, q.2 + 1) else q)
  else acc ++ [(p, 1)]

/-- A mined progression record: pattern, occurrence count, pattern length,
average duration (of the FIRST `length` filtered segments — the source
indexes `filtered_sequence[i]` for `i in range(len(pattern))`, not the
occurrences), and music-theory function label. -/
structure Progression where
  progression : List String
  count : ℕ
  length : ℕ
  avg_duration : ℚ
  function : String
deriving DecidableEq, Repr

/-- The patterns mined at one window length `L ∈ {2, 4}`: count windows
without cluster chords, keep those reaching `max 2 (len / (2L))` occurrences
whose average duration reaches `min_progression_duration`. -/
def minedForLength (filtered : List Segment) (L : ℕ) : List Progression :=
  if filtered.length ≤ L then []
  else
    (((windowsOf L (filtered.map Segment.chord)).filter
        (fun p => !p.any (fun c => strEndsWith c ":cluster"))).foldl bumpPattern []).filterMap
      (fun pc =>
        if max 2 (filtered.length / (L * 2)) ≤ pc.2 then
          if min_progression_duration ≤ ((filtered.take L).map Segment.duration).sum / (L : ℚ) then
            some ⟨pc.1, pc.2, L, ((filtered.take L).map Segment.duration).sum / (L : ℚ),
                  analyze_chord_function pc.1⟩
          else none
        else none)

/-- The ranking order of `sorted(..., key=lambda x: (count, -length),
reverse=True)`: count descending, then length ascending, ties true (Python's
sort is stable, also with `reverse=True`). -/
def progLE (p q : Progression) : Prop :=
  q.count < p.count ∨ (p.count = q.count ∧ p.length ≤ q.length)

instance : DecidableRel progLE := fun p q =>
  inferInstanceAs (Decidable (_ ∨ _ ∧ _))

instance : IsTotal Progression progLE :=
  ⟨fun p q => by unfold progLE; omega⟩

instance : IsTrans Progression progLE :=
  ⟨fun p q r hpq hqr => by unfold progLE at *; omega⟩

/-- `detect_chord_progression`: filter/merge, mine lengths 2 and 4, sort by
(count desc, length asc), return the top 3. -/
def detect_chord_progression (simplified : List Segment) : List Progression :=
  if simplified = [] then []
  else
    ((minedForLength (progFilterSeq simplified) 2
        ++ minedForLength (progFilterSeq simplified) 4).insertionSort progLE).take 3

/-- When every segment passes both skip checks and no two neighbours share a
chord, the filter/merge fold flushes every segment with its duration
recomputed as `end - start`. -/
theorem progFilter_fold_pass (l : List Segment) :
    ∀ (acc : List Segment) (ch : String) (s e : ℚ),
      (∀ x ∈ l, strEndsWith x.chord ":cluster" = false ∧ min_chord_duration ≤ x.duration) →
      List.Chain' (fun a b : Segment => a.chord ≠ b.chord)
        ({ chord := ch, start_time := s, end_time := e, duration := e - s } :: l) →
      progFlush (l.foldl progFilterStep (acc, some (ch, s, e)))
        = acc ++ { chord := ch, start_time := s, end_time := e, duration := e - s }
            :: l.map (fun x : Segment =>
                { chord := x.chord, start_time := x.start_time, end_time := x.end_time,
                  duration := x.end_time - x.start_time }) := by
  induction l with
  | nil => intro acc ch s e _ _; rfl
  | cons c l ih =>
    intro acc ch s e hpass hchain
    have hc := hpass c (List.mem_cons_self c l)
    have hne : c.chord ≠ ch := by
      have h1 := (List.chain'_cons.mp hchain).1
      exact fun h => h1 (by rw [h])
    have hstep : progFilterStep (acc, some (ch, s, e)) c
        = (acc ++ [{ chord := ch, start_time := s, end_time := e, duration := e - s }],
           some (c.chord, c.start_time, c.end_time)) := by
      rw [progFilterStep, if_neg (by rw [hc.1]; simp), if_neg (not_lt.mpr hc.2)]
      exact if_neg (fun hx => hne hx.1)
    have htail := (List.chain'_cons.mp hchain).2
    have hch2 : List.Chain' (fun a b : Segment => a.chord ≠ b.chord)
        ({ chord := c.chord, start_time := c.start_time, end_time := c.end_time,
           duration := c.end_time - c.start_time } :: l) := by
      refine List.chain'_cons'.mpr ⟨?_, (List.chain'_cons'.mp htail).2⟩
      intro b hb
      exact (List.chain'_cons'.mp htail).1 b hb
    have ih' := ih (acc ++ [{ chord := ch, start_time := s, end_time := e, duration := e - s }])
        c.chord c.start_time c.end_time
        (fun x hx => hpass x (List.mem_cons_of_mem _ hx)) hch2
    rw [List.foldl_cons, hstep, ih']
    simp

theorem sort4_mined (p1 p2 p3 p4 : Progression)
    (h1c : p1.count = 4) (h1l : p1.length = 2) (h2c : p2.count = 3) (h2l : p2.length = 2)
    (h3c : p3.count = 3) (h3l : p3.length = 4) (h4c : p4.count = 2) (h4l : p4.length = 4) :
    ([p1, p2] ++ [p3, p4]).insertionSort progLE = [p1, p2, p3, p4] := by
  have hp34 : progLE p3 p4 := Or.inl (by omega)
  have hp23 : progLE p2 p3 := Or.inr ⟨by omega, by omega⟩
  have hp12 : progLE p1 p2 := Or.inl (by omega)
  simp only [List.cons_append, List.nil_append]
  rw [List.insertionSort, List.insertionSort, List.insertionSort, List.insertionSort,
    List.insertionSort, List.orderedInsert, List.orderedInsert, if_pos hp34,
    List.orderedInsert, if_pos hp23, List.orderedInsert, if_pos hp12]

/-- C7: for any segment list whose chords form the period-2 pattern
[A,B,A,B,A,B,A,B] with A, B distinct non-cluster labels and every duration
at or above the `min_progression_duration` floor (which exceeds
`min_chord_duration`), the top-ranked mined progression is the length-2
pattern (A,B) with occurrence count 4; and in general
`detect_chord_progression` output is sorted by occurrence count descending,
then pattern length ascending (`progLE`). -/
theorem C7_progression_miner (A B : String) (segs : List Segment)
    (hmap : segs.map Segment.chord = [A, B, A, B, A, B, A, B])
    (hAB : A ≠ B)
    (hA : strEndsWith A ":cluster" = false) (hB : strEndsWith B ":cluster" = false)
    (hall : ∀ s ∈ segs, s.duration = s.end_time - s.start_time
        ∧ min_progression_duration ≤ s.duration) :
    (∀ l : List Segment, (detect_chord_progression l).Sorted progLE)
    ∧ ∃ p : Progression, (detect_chord_progression segs).head? = some p
        ∧ p.progression = [A, B] ∧ 4 ≤ p.count ∧ p.length = 2 := by
  constructor
  · intro l
    rw [detect_chord_progression]
    split
    · exact List.sorted_nil
    · exact List.Pairwise.sublist (List.take_sublist 3 _) (List.sorted_insertionSort progLE _)
  · rcases segs with _ | ⟨s0, segs⟩
    · simp at hmap
    rcases segs with _ | ⟨s1, segs⟩
    · simp at hmap
    rcases segs with _ | ⟨s2, segs⟩
    · simp at hmap
    rcases segs with _ | ⟨s3, segs⟩
    · simp at hmap
    rcases segs with _ | ⟨s4, segs⟩
    · simp at hmap
    rcases segs with _ | ⟨s5, segs⟩
    · simp at hmap
    rcases segs with _ | ⟨s6, segs⟩
    · simp at hmap
    rcases segs with _ | ⟨s7, segs⟩
    · simp at hmap
    rcases segs with _ | ⟨s8, segs⟩
    swap
    · simp at hmap
    obtain ⟨c0, st0, en0, d0⟩ := s0
    obtain ⟨c1, st1, en1, d1⟩ := s1
    obtain ⟨c2, st2, en2, d2⟩ := s2
    obtain ⟨c3, st3, en3, d3⟩ := s3
    obtain ⟨c4, st4, en4, d4⟩ := s4
    obtain ⟨c5, st5, en5, d5⟩ := s5
    obtain ⟨c6, st6, en6, d6⟩ := s6
    obtain ⟨c7, st7, en7, d7⟩ := s7
    simp only [List.map_cons, List.map_nil, List.cons.injEq, and_true] at hmap
    obtain ⟨hc0, hc1, hc2, hc3, hc4, hc5, hc6, hc7⟩ := hmap
    have hc0' := hc0.symm; subst hc0'
    have hc1' := hc1.symm; subst hc1'
    have hc2' := hc2.symm; subst hc2'
    have hc3' := hc3.symm; subst hc3'
    have hc4' := hc4.symm; subst hc4'
    have hc5' := hc5.symm; subst hc5'
    have hc6' := hc6.symm; subst hc6'
    have hc7' := hc7.symm; subst hc7'
    have h0 : d0 = en0 - st0 ∧ (2:ℚ) ≤ d0 := hall ⟨A, st0, en0, d0⟩ (by simp)
    have h1 : d1 = en1 - st1 ∧ (2:ℚ) ≤ d1 := hall ⟨B, st1, en1, d1⟩ (by simp)
    have h2 : d2 = en2 - st2 ∧ (2:ℚ) ≤ d2 := hall ⟨A, st2, en2, d2⟩ (by simp)
    have h3 : d3 = en3 - st3 ∧ (2:ℚ) ≤ d3 := hall ⟨B, st3, en3, d3⟩ (by simp)
    have h4 : d4 = en4 - st4 ∧ (2:ℚ) ≤ d4 := hall ⟨A, st4, en4, d4⟩ (by simp)
    have h5 : d5 = en5 - st5 ∧ (2:ℚ) ≤ d5 := hall ⟨B, st5, en5, d5⟩ (by simp)
    have h6 : d6 = en6 - st6 ∧ (2:ℚ) ≤ d6 := hall ⟨A, st6, en6, d6⟩ (by simp)
    have h7 : d7 = en7 - st7 ∧ (2:ℚ) ≤ d7 := hall ⟨B, st7, en7, d7⟩ (by simp)
    have hBA : B ≠ A := Ne.symm hAB
    have hfil : progFilterSeq
        [⟨A, st0, en0, d0⟩, ⟨B, st1, en1, d1⟩, ⟨A, st2, en2, d2⟩, ⟨B, st3, en3, d3⟩,
         ⟨A, st4, en4, d4⟩, ⟨B, st5, en5, d5⟩, ⟨A, st6, en6, d6⟩, ⟨B, st7, en7, d7⟩]
        = [⟨A, st0, en0, en0 - st0⟩, ⟨B, st1, en1, en1 - st1⟩, ⟨A, st2, en2, en2 - st2⟩,
           ⟨B, st3, en3, en3 - st3⟩, ⟨A, st4, en4, en4 - st4⟩, ⟨B, st5, en5, en5 - st5⟩,
           ⟨A, st6, en6, en6 - st6⟩, ⟨B, st7, en7, en7 - st7⟩] := by
      have hstep0 : progFilterStep ([], none) ⟨A, st0, en0, d0⟩
          = ([], some (A, st0, en0)) := by
        rw [progFilterStep, if_neg (by simp [hA]),
          if_neg (not_lt.mpr (show min_chord_duration ≤ d0 by
            show (4/5 : ℚ) ≤ d0; linarith [h0.2]))]
      have hpass : ∀ x ∈ [(⟨B, st1, en1, d1⟩ : Segment), ⟨A, st2, en2, d2⟩, ⟨B, st3, en3, d3⟩,
          ⟨A, st4, en4, d4⟩, ⟨B, st5, en5, d5⟩, ⟨A, st6, en6, d6⟩, ⟨B, st7, en7, d7⟩],
          strEndsWith x.chord ":cluster" = false ∧ min_chord_duration ≤ x.duration := by
        intro x hx
        fin_cases hx <;> refine ⟨by assumption, ?_⟩ <;> show (4/5 : ℚ) ≤ _ <;>
          linarith [h1.2, h2.2, h3.2, h4.2, h5.2, h6.2, h7.2]
      have hchain : List.Chain' (fun a b : Segment => a.chord ≠ b.chord)
          ((⟨A, st0, en0, en0 - st0⟩ : Segment) :: [(⟨B, st1, en1, d1⟩ : Segment),
            ⟨A, st2, en2, d2⟩, ⟨B, st3, en3, d3⟩, ⟨A, st4, en4, d4⟩, ⟨B, st5, en5, d5⟩,
            ⟨A, st6, en6, d6⟩, ⟨B, st7, en7, d7⟩]) := by
        simp [List.chain'_cons, hAB, hBA]
      have hrest := progFilter_fold_pass
        [(⟨B, st1, en1, d1⟩ : Segment), ⟨A, st2, en2, d2⟩, ⟨B, st3, en3, d3⟩,
         ⟨A, st4, en4, d4⟩, ⟨B, st5, en5, d5⟩, ⟨A, st6, en6, d6⟩, ⟨B, st7, en7, d7⟩]
        [] A st0 en0 hpass hchain
      rw [progFilterSeq, List.foldl_cons, hstep0, hrest]
      simp
    rw [detect_chord_progression, if_neg (by simp), hfil]
    have hm2 : minedForLength
        [⟨A, st0, en0, en0 - st0⟩, ⟨B, st1, en1, en1 - st1⟩, ⟨A, st2, en2, en2 - st2⟩,
         ⟨B, st3, en3, en3 - st3⟩, ⟨A, st4, en4, en4 - st4⟩, ⟨B, st5, en5, en5 - st5⟩,
         ⟨A, st6, en6, en6 - st6⟩, ⟨B, st7, en7, en7 - st7⟩] 2
        = [⟨[A, B], 4, 2, ((en0 - st0) + ((en1 - st1) + 0)) / ((2:ℕ):ℚ),
             analyze_chord_function [A, B]⟩,
           ⟨[B, A], 3, 2, ((en0 - st0) + ((en1 - st1) + 0)) / ((2:ℕ):ℚ),
             analyze_chord_function [B, A]⟩] := by
      rw [minedForLength, if_neg (by simp)]
      rw [show windowsOf 2 ([(⟨A, st0, en0, en0 - st0⟩ : Segment), ⟨B, st1, en1, en1 - st1⟩,
          ⟨A, st2, en2, en2 - st2⟩, ⟨B, st3, en3, en3 - st3⟩, ⟨A, st4, en4, en4 - st4⟩,
          ⟨B, st5, en5, en5 - st5⟩, ⟨A, st6, en6, en6 - st6⟩,
          ⟨B, st7, en7, en7 - st7⟩].map Segment.chord)
          = [[A, B], [B, A], [A, B], [B, A], [A, B], [B, A], [A, B]] from rfl]
      rw [show ([[A, B], [B, A], [A, B], [B, A], [A, B], [B, A], [A, B]] : List (List String)).filter
          (fun p => !p.any (fun c => strEndsWith c ":cluster"))
          = [[A, B], [B, A], [A, B], [B, A], [A, B], [B, A], [A, B]] from by simp [hA, hB]]
      rw [show List.foldl bumpPattern []
          [[A, B], [B, A], [A, B], [B, A], [A, B], [B, A], [A, B]]
          = [([A, B], 4), ([B, A], 3)] from by
        simp [bumpPattern, hAB, hBA]]
      have havg : min_progression_duration ≤
          (([(⟨A, st0, en0, en0 - st0⟩ : Segment), ⟨B, st1, en1, en1 - st1⟩,
            ⟨A, st2, en2, en2 - st2⟩, ⟨B, st3, en3, en3 - st3⟩, ⟨A, st4, en4, en4 - st4⟩,
            ⟨B, st5, en5, en5 - st5⟩, ⟨A, st6, en6, en6 - st6⟩,
            ⟨B, st7, en7, en7 - st7⟩].take 2).map Segment.duration).sum / ((2:ℕ):ℚ) := by
        show (2:ℚ) ≤ ((en0 - st0) + ((en1 - st1) + 0)) / ((2:ℕ):ℚ)
        push_cast
        have e0 : (2:ℚ) ≤ en0 - st0 := h0.1 ▸ h0.2
        have e1 : (2:ℚ) ≤ en1 - st1 := h1.1 ▸ h1.2
        linarith
      rw [List.filterMap_cons, List.filterMap_cons, List.filterMap_nil]
      simp only [if_pos havg]
      norm_num
    have hm4 : minedForLength
        [⟨A, st0, en0, en0 - st0⟩, ⟨B, st1, en1, en1 - st1⟩, ⟨A, st2, en2, en2 - st2⟩,
         ⟨B, st3, en3, en3 - st3⟩, ⟨A, st4, en4, en4 - st4⟩, ⟨B, st5, en5, en5 - st5⟩,
         ⟨A, st6, en6, en6 - st6⟩, ⟨B, st7, en7, en7 - st7⟩] 4
        = [⟨[A, B, A, B], 3, 4,
             ((en0 - st0) + ((en1 - st1) + ((en2 - st2) + ((en3 - st3) + 0)))) / ((4:ℕ):ℚ),
             analyze_chord_function [A, B, A, B]⟩,
           ⟨[B, A, B, A], 2, 4,
             ((en0 - st0) + ((en1 - st1) + ((en2 - st2) + ((en3 - st3) + 0)))) / ((4:ℕ):ℚ),
             analyze_chord_function [B, A, B, A]⟩] := by
      rw [minedForLength, if_neg (by simp)]
      rw [show windowsOf 4 ([(⟨A, st0, en0, en0 - st0⟩ : Segment), ⟨B, st1, en1, en1 - st1⟩,
          ⟨A, st2, en2, en2 - st2⟩, ⟨B, st3, en3, en3 - st3⟩, ⟨A, st4, en4, en4 - st4⟩,
          ⟨B, st5, en5, en5 - st5⟩, ⟨A, st6, en6, en6 - st6⟩,
          ⟨B, st7, en7, en7 - st7⟩].map Segment.chord)
          = [[A, B, A, B], [B, A, B, A], [A, B, A, B], [B, A, B, A], [A, B, A, B]] from rfl]
      rw [show ([[A, B, A, B], [B, A, B, A], [A, B, A, B], [B, A, B, A], [A, B, A, B]] :
            List (List String)).filter
          (fun p => !p.any (fun c => strEndsWith c ":cluster"))
          = [[A, B, A, B], [B, A, B, A], [A, B, A, B], [B, A, B, A], [A, B, A, B]] from by
        simp [hA, hB]]
      rw [show List.foldl bumpPattern []
          [[A, B, A, B], [B, A, B, A], [A, B, A, B], [B, A, B, A], [A, B, A, B]]
          = [([A, B, A, B], 3), ([B, A, B, A], 2)] from by
        simp [bumpPattern, hAB, hBA]]
      have havg : min_progression_duration ≤
          (([(⟨A, st0, en0, en0 - st0⟩ : Segment), ⟨B, st1, en1, en1 - st1⟩,
            ⟨A, st2, en2, en2 - st2⟩, ⟨B, st3, en3, en3 - st3⟩, ⟨A, st4, en4, en4 - st4⟩,
            ⟨B, st5, en5, en5 - st5⟩, ⟨A, st6, en6, en6 - st6⟩,
            ⟨B, st7, en7, en7 - st7⟩].take 4).map Segment.duration).sum / ((4:ℕ):ℚ) := by
        show (2:ℚ) ≤
          ((en0 - st0) + ((en1 - st1) + ((en2 - st2) + ((en3 - st3) + 0)))) / ((4:ℕ):ℚ)
        push_cast
        have e0 : (2:ℚ) ≤ en0 - st0 := h0.1 ▸ h0.2
        have e1 : (2:ℚ) ≤ en1 - st1 := h1.1 ▸ h1.2
        have e2 : (2:ℚ) ≤ en2 - st2 := h2.1 ▸ h2.2
        have e3 : (2:ℚ) ≤ en3 - st3 := h3.1 ▸ h3.2
        linarith
      rw [List.filterMap_cons, List.filterMap_cons, List.filterMap_nil]
      simp only [if_pos havg]
      norm_num
    rw [hm2, hm4, sort4_mined _ _ _ _ rfl rfl rfl rfl rfl rfl rfl rfl]
    exact ⟨_, rfl, rfl, by norm_num, rfl⟩

/-- Witness for C7: eight alternating 2-second C:maj / G:maj segments. -/
theorem C7_progression_miner_witness :
    (∀ l : List Segment, (detect_chord_progression l).Sorted progLE)
    ∧ ∃ p : Progression, (detect_chord_progression
        [⟨"C:maj", 0, 2, 2⟩, ⟨"G:maj", 2, 4, 2⟩, ⟨"C:maj", 4, 6, 2⟩, ⟨"G:maj", 6, 8, 2⟩,
         ⟨"C:maj", 8, 10, 2⟩, ⟨"G:maj", 10, 12, 2⟩, ⟨"C:maj", 12, 14, 2⟩,
         ⟨"G:maj", 14, 16, 2⟩]).head? = some p
        ∧ p.progression = ["C:maj", "G:maj"] ∧ 4 ≤ p.count ∧ p.length = 2 :=
  C7_progression_miner "C:maj" "G:maj"
    [⟨"C:maj", 0, 2, 2⟩, ⟨"G:maj", 2, 4, 2⟩, ⟨"C:maj", 4, 6, 2⟩, ⟨"G:maj", 6, 8, 2⟩,
     ⟨"C:maj", 8, 10, 2⟩, ⟨"G:maj", 10, 12, 2⟩, ⟨"C:maj", 12, 14, 2⟩, ⟨"G:maj", 14, 16, 2⟩]
    rfl (by decide) (by decide) (by decide)
    (by intro s hs; fin_cases hs <;> exact ⟨by norm_num, by norm_num [min_progression_duration]⟩)

/-! ### Key finalization (`estimate_key`, steps 4–5) -/

/-- The `root_notes` table of `estimate_key` (chromatic scale from C). -/
def root_notes : List String :=
  ["C", "C#", "D", "D#", "E", "F"] ++ ["F#", "G", "G#", "A", "A#", "B"]

/-- One comparison step of Python `max(items, key=lambda x: x[1])`: replace
the current maximum only on strictly greater score, so ties keep the first
encountered entry. -/
def pickMaxKV {K : Type} [LinearOrder K] (m y : String × K) : String × K :=
  if m.2 < y.2 then y else m

/-- Python `max(final_scores.items(), key=lambda x: x[1])` (first maximal
entry), `none` on the empty dict. -/
def firstMax {K : Type} [LinearOrder K] : List (String × K) → Option (String × K)
  | [] => none
  | x :: xs => some (xs.foldl pickMaxKV x)

/-- Python `s.split()[0]`: the leading whitespace-delimited token (none of
the key labels starts with a space). -/
def firstToken (s : String) : String :=
  String.mk (s.data.takeWhile (fun c => c ≠ ' '))

/-- The relative-minor label `estimate_key` builds from a `"X Major"` label:
root = text before the first space, advanced 9 semitones mod 12. -/
def relativeMinorName (est : String) : String :=
  root_notes.getD ((root_notes.findIdx (fun r => r = firstToken est) + 9) % 12) ""
    ++ " Minor"

/-- Steps 4–5 of `estimate_key`: argmax of the combined scores, then the
relative-minor correction — if the winner ends in `"Major"` and its relative
minor is present with score strictly above 0.9 of the winning score, return
the relative minor instead. -/
def finalizeKey {K : Type} [LinearOrderedField K] (final_scores : List (String × K)) :
    String :=
  match firstMax final_scores with
  | none => "Unknown Key"
  | some (est, _) =>
    if strEndsWith est "Major" = true then
      match final_scores.find? (fun p => p.1 = relativeMinorName est) with
      | some q =>
          if (((final_scores.find? (fun p => p.1 = est)).map Prod.snd).getD 0) * (9/10) < q.2
          then relativeMinorName est else est
      | none => est
    else est

theorem foldl_pickMaxKV_mem {K : Type} [LinearOrder K] (l : List (String × K)) :
    ∀ m : String × K, l.foldl pickMaxKV m ∈ m :: l := by
  induction l with
  | nil => intro m; simp
  | cons y l ih =>
    intro m
    rw [List.foldl_cons]
    rcases (show pickMaxKV m y = y ∨ pickMaxKV m y = m by
        unfold pickMaxKV; split <;> simp) with h | h <;> rw [h]
    · exact List.mem_cons_of_mem _ (ih y)
    · rcases List.mem_cons.mp (ih m) with h1 | h1
      · exact List.mem_cons.mpr (Or.inl h1)
      · exact List.mem_cons_of_mem _ (List.mem_cons_of_mem _ h1)

theorem firstMax_mem {K : Type} [LinearOrder K] (l : List (String × K)) (x : String × K)
    (h : firstMax l = some x) : x ∈ l := by
  cases l with
  | nil => simp [firstMax] at h
  | cons y ys =>
    rw [firstMax] at h
    obtain rfl : ys.foldl pickMaxKV y = x := by injection h
    exact foldl_pickMaxKV_mem ys y

theorem find?_key_of_nodup {K : Type} (l : List (String × K)) (est : String) (v : K)
    (hnd : (l.map Prod.fst).Nodup) (hmem : (est, v) ∈ l) :
    l.find? (fun p => p.1 = est) = some (est, v) := by
  induction l with
  | nil => simp at hmem
  | cons y l ih =>
    by_cases h : y.1 = est
    · rw [List.find?_cons_of_pos _ (by simp [h])]
      rcases List.mem_cons.mp hmem with h1 | h1
      · rw [← h1]
      · exfalso
        have hin : est ∈ l.map Prod.fst := List.mem_map.mpr ⟨(est, v), h1, rfl⟩
        have hy : y.1 ∉ l.map Prod.fst := (List.nodup_cons.mp (by simpa using hnd)).1
        exact hy (h ▸ hin)
    · rw [List.find?_cons_of_neg _ (by simp [h])]
      refine ih (List.nodup_cons.mp (by simpa using hnd)).2 ?_
      rcases List.mem_cons.mp hmem with h1 | h1
      · exact absurd (by rw [← h1]) h
      · exact h1

/-! ### The five key-detection methods of `estimate_key` -/

/-- Key/score list in generation order: for each root, Major then Minor. -/
noncomputable def keyScoresOfFn (f g : Fin 12 → ℝ) : List (String × ℝ) :=
  (List.finRange 12).flatMap (fun i =>
    [(root_notes.getD i "" ++ " Major", f i), (root_notes.getD i "" ++ " Minor", g i)])

def krumhansl_major_raw : List ℚ :=
  [6.35, 2.23, 3.48, 2.33, 4.38, 4.09, 2.52, 5.19, 2.39, 3.66, 2.29, 2.88]

def krumhansl_minor_raw : List ℚ :=
  [6.33, 2.68, 3.52, 5.38, 2.60, 3.53, 2.54, 4.75, 3.98, 2.69, 3.34, 3.17]

def temperley_major : List ℚ :=
  [0.748, 0.060, 0.488, 0.082, 0.670, 0.460, 0.096, 0.715, 0.104, 0.366, 0.057, 0.400]

def temperley_minor : List ℚ :=
  [0.712, 0.084, 0.474, 0.618, 0.049, 0.460, 0.105, 0.747, 0.404, 0.067, 0.133, 0.330]

/-- `np.roll(profile, i)[j] = profile[(j - i) mod 12]`, as a real number. -/
noncomputable def rollGet (l : List ℚ) (i j : Fin 12) : ℝ :=
  ((l.getD ((j - i : Fin 12) : ℕ) 0 : ℚ) : ℝ)

/-- Pearson correlation coefficient (`np.corrcoef(x, y)[0, 1]`); total real
division makes it 0 when either vector is constant (IEEE would give nan). -/
noncomputable def pearson (x y : Fin 12 → ℝ) : ℝ :=
  (∑ i, (x i - (∑ j, x j) / 12) * (y i - (∑ j, y j) / 12)) /
    (Real.sqrt (∑ i, (x i - (∑ j, x j) / 12) ^ 2) *
     Real.sqrt (∑ i, (y i - (∑ j, y j) / 12) ^ 2))

noncomputable def krumhansl_schmuckler (v : Fin 12 → ℝ) : List (String × ℝ) :=
  keyScoresOfFn
    (fun i => pearson
      (fun j => rollGet krumhansl_major_raw i j / ((krumhansl_major_raw.sum : ℚ) : ℝ)) v)
    (fun i => pearson
      (fun j => rollGet krumhansl_minor_raw i j / ((krumhansl_minor_raw.sum : ℚ) : ℝ)) v)

noncomputable def temperley_kostka_payne (v : Fin 12 → ℝ) : List (String × ℝ) :=
  keyScoresOfFn
    (fun i => ∑ j, rollGet temperley_major i j * v j)
    (fun i => ∑ j, rollGet temperley_minor i j * v j)

/-- A segment contributing harmonic functions in
`analyze_chord_progressions`: not `"N"`, splits on `:` into exactly two
parts, and its chord type is in one of the three recognized classes. -/
def chordProgRecognized (s : Segment) : Bool :=
  s.chord != "N" && (s.chord.splitOn ":").length == 2 &&
    ["maj", "maj7", "maj6", "min", "min7", "min6", "7", "9", "11"].contains
      ((s.chord.splitOn ":").getD 1 "")

/-- `analyze_chord_progressions` returns `{mode: {function: duration}}` with
keys `"Major"`/`"Minor"` (both inserted by any recognized chord, `"Major"`
first), or `{}` when no chord is recognized. The inner function/duration
dicts are elided (mapped to 0) because `combine_key_scores` only ever looks
up keys of the form `"<root> Major"`/`"<root> Minor"`, which are never in
this dict, so its contribution to every combined score is 0; and
`available_keys` is only taken from it when both profile methods returned
`{}`, which the total embedding never does. -/
noncomputable def analyze_chord_progressions (seq : List Segment) : List (String × ℝ) :=
  if seq.any chordProgRecognized then [("Major", 0), ("Minor", 0)] else []

noncomputable def chromaMean (chroma : List (Fin 12 → ℝ)) (i : Fin 12) : ℝ :=
  (chroma.map (fun f => f i)).sum / chroma.length

noncomputable def chromaVar (chroma : List (Fin 12 → ℝ)) (i : Fin 12) : ℝ :=
  (chroma.map (fun f => (f i - chromaMean chroma i) ^ 2)).sum / chroma.length

/-- strength·stability: `(mean/Σmean) * (1/(1+var))`. -/
noncomputable def chromaImportance (chroma : List (Fin 12 → ℝ)) (i : Fin 12) : ℝ :=
  chromaMean chroma i / (∑ j, chromaMean chroma j) * (1 / (1 + chromaVar chroma i))

noncomputable def analyze_chroma_statistics (chroma : List (Fin 12 → ℝ)) :
    List (String × ℝ) :=
  keyScoresOfFn (chromaImportance chroma) (chromaImportance chroma)

/-- `ml_key_detection`: the feature vector is the 12 chroma values followed
by 9 chord-type features, but every index read (`i`, `(i+7)%12`, `(i+4)%12`,
`(i+3)%12` for `i < 12`) is below 12, so the chord features — and hence the
`chord_sequence` argument — are dead. -/
noncomputable def ml_key_detection (v : Fin 12 → ℝ) (chord_sequence : List Segment) :
    List (String × ℝ) :=
  keyScoresOfFn
    (fun i => v i * 2 + v (i + 7) * (3/2) + v (i + 4) * (6/5))
    (fun i => v i * 2 + v (i + 7) * (3/2) + v (i + 3) * (6/5))

noncomputable def dictGetR (d : List (String × ℝ)) (k : String) : ℝ :=
  ((d.find? (fun p => p.1 = k)).map Prod.snd).getD 0

/-- `combine_key_scores`: keys come from the first method with a non-empty
score dict; each key's final score is the weighted sum of that key's score
in every method (0.2/0.2/0.3/0.1/0.2). -/
noncomputable def combine_key_scores (ms : List (String × List (String × ℝ))) :
    List (String × ℝ) :=
  match ms.find? (fun m => !m.2.isEmpty) with
  | none => []
  | some m =>
    m.2.map (fun p =>
      (p.1,
        [("krumhansl", (1/5 : ℝ)), ("temperley", 1/5), ("chord_prog", 3/10),
         ("chroma_stats", 1/10), ("ml", 1/5)].foldl
          (fun acc wt =>
            acc + (match ms.find? (fun q => q.1 = wt.1) with
                   | some q => dictGetR q.2 p.1
                   | none => 0) * wt.2) 0))

/-- The summed-then-normalized chroma vector of `estimate_key`, with the
uniform `1/12` fallback on non-positive total energy. -/
noncomputable def chromaVectorOf (chroma : List (Fin 12 → ℝ)) : Fin 12 → ℝ :=
  if 0 < ∑ i, (chroma.map (fun f => f i)).sum
  then fun i => (chroma.map (fun f => f i)).sum / ∑ j, (chroma.map (fun f => f j)).sum
  else fun _ => 1 / 12

noncomputable def methodsScores (chroma : List (Fin 12 → ℝ)) (chord_sequence : List Segment) :
    List (String × List (String × ℝ)) :=
  [("krumhansl", krumhansl_schmuckler (chromaVectorOf chroma)),
   ("temperley", temperley_kostka_payne (chromaVectorOf chroma)),
   ("chord_prog", analyze_chord_progressions chord_sequence),
   ("chroma_stats", analyze_chroma_statistics chroma),
   ("ml", ml_key_detection (chromaVectorOf chroma) chord_sequence)]

noncomputable def estimate_key (chroma : List (Fin 12 → ℝ)) (chord_sequence : List Segment) :
    String :=
  if (combine_key_scores (methodsScores chroma chord_sequence)).isEmpty then "Unknown Key"
  else finalizeKey (combine_key_scores (methodsScores chroma chord_sequence))

theorem pearson_const (x : Fin 12 → ℝ) (c : ℝ) : pearson x (fun _ => c) = 0 := by
  rw [pearson]
  have hm : (∑ _j : Fin 12, c) / 12 = c := by
    rw [Finset.sum_const]
    simp
  rw [hm]
  simp

theorem sum_roll (l : List ℚ) (i : Fin 12) :
    ∑ j : Fin 12, rollGet l i j = ∑ j : Fin 12, ((l.getD (j : ℕ) 0 : ℚ) : ℝ) :=
  Fintype.sum_equiv (Equiv.subRight i) _ _ (fun _ => rfl)

theorem temperley_major_sum : ((temperley_major.sum : ℚ) : ℝ) = (4246/1000 : ℚ) := by
  norm_num [temperley_major]

theorem foldl_pickMaxKV_of_le {K : Type} [LinearOrder K] (l : List (String × K)) :
    ∀ m : String × K, (∀ y ∈ l, y.2 ≤ m.2) → l.foldl pickMaxKV m = m := by
  induction l with
  | nil => intro m _; rfl
  | cons y l ih =>
    intro m hle
    rw [List.foldl_cons, show pickMaxKV m y = m from
      if_neg (not_lt.mpr (hle y (List.mem_cons_self y l)))]
    exact ih m (fun z hz => hle z (List.mem_cons_of_mem y hz))

theorem krumhansl_uniform :
    krumhansl_schmuckler (fun _ => (1/12 : ℝ))
      = keyScoresOfFn (fun _ => 0) (fun _ => 0) := by
  rw [krumhansl_schmuckler]
  simp only [pearson_const]

theorem temperley_major_total :
    ∑ j : Fin 12, ((temperley_major.getD ((j : ℕ)) 0 : ℚ) : ℝ) = 4246/1000 := by
  simp +decide only [Fin.sum_univ_succ, Fin.sum_univ_zero]
  norm_num [temperley_major]

theorem temperley_minor_total :
    ∑ j : Fin 12, ((temperley_minor.getD ((j : ℕ)) 0 : ℚ) : ℝ) = 4183/1000 := by
  simp +decide only [Fin.sum_univ_succ, Fin.sum_univ_zero]
  norm_num [temperley_minor]

theorem temperley_uniform :
    temperley_kostka_payne (fun _ => (1/12 : ℝ))
      = keyScoresOfFn (fun _ => (4246/12000 : ℝ)) (fun _ => 4183/12000) := by
  rw [temperley_kostka_payne]
  congr 1 <;> funext i
  · show (∑ j : Fin 12, rollGet temperley_major i j * (1/12 : ℝ)) = 4246/12000
    rw [← Finset.sum_mul, sum_roll, temperley_major_total]
    norm_num
  · show (∑ j : Fin 12, rollGet temperley_minor i j * (1/12 : ℝ)) = 4183/12000
    rw [← Finset.sum_mul, sum_roll, temperley_minor_total]
    norm_num

theorem chroma_stats_zero :
    analyze_chroma_statistics [fun _ => (0:ℝ)]
      = keyScoresOfFn (fun _ => 0) (fun _ => 0) := by
  rw [analyze_chroma_statistics]
  congr 1 <;> funext i <;> simp [chromaImportance, chromaMean]

theorem ml_uniform :
    ml_key_detection (fun _ => (1/12 : ℝ)) []
      = keyScoresOfFn (fun _ => (47/120 : ℝ)) (fun _ => 47/120) := by
  rw [ml_key_detection]
  congr 1 <;> funext i <;> norm_num

theorem chromaVectorOf_zero :
    chromaVectorOf [fun _ => (0:ℝ)] = fun _ => 1 / 12 := by
  rw [chromaVectorOf, if_neg]
  simp

theorem methodsScores_silent :
    methodsScores [fun _ => (0:ℝ)] []
      = [("krumhansl", keyScoresOfFn (fun _ => 0) (fun _ => 0)),
         ("temperley", keyScoresOfFn (fun _ => (4246/12000 : ℝ)) (fun _ => 4183/12000)),
         ("chord_prog", []),
         ("chroma_stats", keyScoresOfFn (fun _ => 0) (fun _ => 0)),
         ("ml", keyScoresOfFn (fun _ => (47/120 : ℝ)) (fun _ => 47/120))] := by
  rw [methodsScores, chromaVectorOf_zero, krumhansl_uniform, temperley_uniform,
    chroma_stats_zero, ml_uniform, show analyze_chord_progressions [] = [] from rfl]

set_option maxRecDepth 100000 in
set_option maxHeartbeats 2000000 in
theorem combine_silent :
    combine_key_scores
      [("krumhansl", keyScoresOfFn (fun _ => 0) (fun _ => 0)),
       ("temperley", keyScoresOfFn (fun _ => (4246/12000 : ℝ)) (fun _ => 4183/12000)),
       ("chord_prog", []),
       ("chroma_stats", keyScoresOfFn (fun _ => 0) (fun _ => 0)),
       ("ml", keyScoresOfFn (fun _ => (47/120 : ℝ)) (fun _ => 47/120))]
      = [("C Major", (1491/10000 : ℝ)), ("C Minor", 2961/20000),
       ("C# Major", (1491/10000 : ℝ)), ("C# Minor", 2961/20000),
       ("D Major", (1491/10000 : ℝ)), ("D Minor", 2961/20000),
       ("D# Major", (1491/10000 : ℝ)), ("D# Minor", 2961/20000),
       ("E Major", (1491/10000 : ℝ)), ("E Minor", 2961/20000),
       ("F Major", (1491/10000 : ℝ)), ("F Minor", 2961/20000),
       ("F# Major", (1491/10000 : ℝ)), ("F# Minor", 2961/20000),
       ("G Major", (1491/10000 : ℝ)), ("G Minor", 2961/20000),
       ("G# Major", (1491/10000 : ℝ)), ("G# Minor", 2961/20000),
       ("A Major", (1491/10000 : ℝ)), ("A Minor", 2961/20000),
       ("A# Major", (1491/10000 : ℝ)), ("A# Minor", 2961/20000),
       ("B Major", (1491/10000 : ℝ)), ("B Minor", 2961/20000)] := by
  rw [show combine_key_scores
      [("krumhansl", keyScoresOfFn (fun _ => 0) (fun _ => 0)),
       ("temperley", keyScoresOfFn (fun _ => (4246/12000 : ℝ)) (fun _ => 4183/12000)),
       ("chord_prog", []),
       ("chroma_stats", keyScoresOfFn (fun _ => 0) (fun _ => 0)),
       ("ml", keyScoresOfFn (fun _ => (47/120 : ℝ)) (fun _ => 47/120))]
      = [("C Major", 0 + 0 * (1/5) + 4246/12000 * (1/5) + 0 * (3/10) + 0 * (1/10) + 47/120 * (1/5)), ("C Minor", 0 + 0 * (1/5) + 4183/12000 * (1/5) + 0 * (3/10) + 0 * (1/10) + 47/120 * (1/5)),
       ("C# Major", 0 + 0 * (1/5) + 4246/12000 * (1/5) + 0 * (3/10) + 0 * (1/10) + 47/120 * (1/5)), ("C# Minor", 0 + 0 * (1/5) + 4183/12000 * (1/5) + 0 * (3/10) + 0 * (1/10) + 47/120 * (1/5)),
       ("D Major", 0 + 0 * (1/5) + 4246/12000 * (1/5) + 0 * (3/10) + 0 * (1/10) + 47/120 * (1/5)), ("D Minor", 0 + 0 * (1/5) + 4183/12000 * (1/5) + 0 * (3/10) + 0 * (1/10) + 47/120 * (1/5)),
       ("D# Major", 0 + 0 * (1/5) + 4246/12000 * (1/5) + 0 * (3/10) + 0 * (1/10) + 47/120 * (1/5)), ("D# Minor", 0 + 0 * (1/5) + 4183/12000 * (1/5) + 0 * (3/10) + 0 * (1/10) + 47/120 * (1/5)),
       ("E Major", 0 + 0 * (1/5) + 4246/12000 * (1/5) + 0 * (3/10) + 0 * (1/10) + 47/120 * (1/5)), ("E Minor", 0 + 0 * (1/5) + 4183/12000 * (1/5) + 0 * (3/10) + 0 * (1/10) + 47/120 * (1/5)),
       ("F Major", 0 + 0 * (1/5) + 4246/12000 * (1/5) + 0 * (3/10) + 0 * (1/10) + 47/120 * (1/5)), ("F Minor", 0 + 0 * (1/5) + 4183/12000 * (1/5) + 0 * (3/10) + 0 * (1/10) + 47/120 * (1/5)),
       ("F# Major", 0 + 0 * (1/5) + 4246/12000 * (1/5) + 0 * (3/10) + 0 * (1/10) + 47/120 * (1/5)), ("F# Minor", 0 + 0 * (1/5) + 4183/12000 * (1/5) + 0 * (3/10) + 0 * (1/10) + 47/120 * (1/5)),
       ("G Major", 0 + 0 * (1/5) + 4246/12000 * (1/5) + 0 * (3/10) + 0 * (1/10) + 47/120 * (1/5)), ("G Minor", 0 + 0 * (1/5) + 4183/12000 * (1/5) + 0 * (3/10) + 0 * (1/10) + 47/120 * (1/5)),
       ("G# Major", 0 + 0 * (1/5) + 4246/12000 * (1/5) + 0 * (3/10) + 0 * (1/10) + 47/120 * (1/5)), ("G# Minor", 0 + 0 * (1/5) + 4183/12000 * (1/5) + 0 * (3/10) + 0 * (1/10) + 47/120 * (1/5)),
       ("A Major", 0 + 0 * (1/5) + 4246/12000 * (1/5) + 0 * (3/10) + 0 * (1/10) + 47/120 * (1/5)), ("A Minor", 0 + 0 * (1/5) + 4183/12000 * (1/5) + 0 * (3/10) + 0 * (1/10) + 47/120 * (1/5)),
       ("A# Major", 0 + 0 * (1/5) + 4246/12000 * (1/5) + 0 * (3/10) + 0 * (1/10) + 47/120 * (1/5)), ("A# Minor", 0 + 0 * (1/5) + 4183/12000 * (1/5) + 0 * (3/10) + 0 * (1/10) + 47/120 * (1/5)),
       ("B Major", 0 + 0 * (1/5) + 4246/12000 * (1/5) + 0 * (3/10) + 0 * (1/10) + 47/120 * (1/5)), ("B Minor", 0 + 0 * (1/5) + 4183/12000 * (1/5) + 0 * (3/10) + 0 * (1/10) + 47/120 * (1/5))] from rfl]
  norm_num

set_option maxRecDepth 100000 in
theorem firstMax_silent :
    firstMax
      [("C Major", (1491/10000 : ℝ)), ("C Minor", 2961/20000),
       ("C# Major", (1491/10000 : ℝ)), ("C# Minor", 2961/20000),
       ("D Major", (1491/10000 : ℝ)), ("D Minor", 2961/20000),
       ("D# Major", (1491/10000 : ℝ)), ("D# Minor", 2961/20000),
       ("E Major", (1491/10000 : ℝ)), ("E Minor", 2961/20000),
       ("F Major", (1491/10000 : ℝ)), ("F Minor", 2961/20000),
       ("F# Major", (1491/10000 : ℝ)), ("F# Minor", 2961/20000),
       ("G Major", (1491/10000 : ℝ)), ("G Minor", 2961/20000),
       ("G# Major", (1491/10000 : ℝ)), ("G# Minor", 2961/20000),
       ("A Major", (1491/10000 : ℝ)), ("A Minor", 2961/20000),
       ("A# Major", (1491/10000 : ℝ)), ("A# Minor", 2961/20000),
       ("B Major", (1491/10000 : ℝ)), ("B Minor", 2961/20000)]
      = some ("C Major", (1491/10000 : ℝ)) := by
  rw [firstMax]
  refine congrArg some (foldl_pickMaxKV_of_le _ _ ?_)
  intro y hy
  fin_cases hy <;> norm_num

set_option maxRecDepth 100000 in
theorem finalizeKey_silent :
    finalizeKey
      [("C Major", (1491/10000 : ℝ)), ("C Minor", 2961/20000),
       ("C# Major", (1491/10000 : ℝ)), ("C# Minor", 2961/20000),
       ("D Major", (1491/10000 : ℝ)), ("D Minor", 2961/20000),
       ("D# Major", (1491/10000 : ℝ)), ("D# Minor", 2961/20000),
       ("E Major", (1491/10000 : ℝ)), ("E Minor", 2961/20000),
       ("F Major", (1491/10000 : ℝ)), ("F Minor", 2961/20000),
       ("F# Major", (1491/10000 : ℝ)), ("F# Minor", 2961/20000),
       ("G Major", (1491/10000 : ℝ)), ("G Minor", 2961/20000),
       ("G# Major", (1491/10000 : ℝ)), ("G# Minor", 2961/20000),
       ("A Major", (1491/10000 : ℝ)), ("A Minor", 2961/20000),
       ("A# Major", (1491/10000 : ℝ)), ("A# Minor", 2961/20000),
       ("B Major", (1491/10000 : ℝ)), ("B Minor", 2961/20000)]
      = "A Minor" := by
  simp only [finalizeKey, firstMax_silent]
  rw [if_pos (show strEndsWith "C Major" "Major" = true from by decide)]
  rw [show relativeMinorName "C Major" = "A Minor" from by decide]
  rw [show List.find? (fun p => p.1 = "A Minor")
      [("C Major", (1491/10000 : ℝ)), ("C Minor", 2961/20000),
       ("C# Major", (1491/10000 : ℝ)), ("C# Minor", 2961/20000),
       ("D Major", (1491/10000 : ℝ)), ("D Minor", 2961/20000),
       ("D# Major", (1491/10000 : ℝ)), ("D# Minor", 2961/20000),
       ("E Major", (1491/10000 : ℝ)), ("E Minor", 2961/20000),
       ("F Major", (1491/10000 : ℝ)), ("F Minor", 2961/20000),
       ("F# Major", (1491/10000 : ℝ)), ("F# Minor", 2961/20000),
       ("G Major", (1491/10000 : ℝ)), ("G Minor", 2961/20000),
       ("G# Major", (1491/10000 : ℝ)), ("G# Minor", 2961/20000),
       ("A Major", (1491/10000 : ℝ)), ("A Minor", 2961/20000),
       ("A# Major", (1491/10000 : ℝ)), ("A# Minor", 2961/20000),
       ("B Major", (1491/10000 : ℝ)), ("B Minor", 2961/20000)]
      = some ("A Minor", (2961/20000 : ℝ)) from rfl]
  rw [show List.find? (fun p => p.1 = "C Major")
      [("C Major", (1491/10000 : ℝ)), ("C Minor", 2961/20000),
       ("C# Major", (1491/10000 : ℝ)), ("C# Minor", 2961/20000),
       ("D Major", (1491/10000 : ℝ)), ("D Minor", 2961/20000),
       ("D# Major", (1491/10000 : ℝ)), ("D# Minor", 2961/20000),
       ("E Major", (1491/10000 : ℝ)), ("E Minor", 2961/20000),
       ("F Major", (1491/10000 : ℝ)), ("F Minor", 2961/20000),
       ("F# Major", (1491/10000 : ℝ)), ("F# Minor", 2961/20000),
       ("G Major", (1491/10000 : ℝ)), ("G Minor", 2961/20000),
       ("G# Major", (1491/10000 : ℝ)), ("G# Minor", 2961/20000),
       ("A Major", (1491/10000 : ℝ)), ("A Minor", 2961/20000),
       ("A# Major", (1491/10000 : ℝ)), ("A# Minor", 2961/20000),
       ("B Major", (1491/10000 : ℝ)), ("B Minor", 2961/20000)]
      = some ("C Major", (1491/10000 : ℝ)) from rfl]
  exact if_pos (by norm_num)

set_option maxRecDepth 100000 in
/-- C9: on a silent 12×1 chroma matrix together with an empty chord-segment
list, `estimate_key` does NOT return the `"Unknown Key"` sentinel: the
profile methods emit scores for all 24 keys even on silent input, so
`final_scores` is never empty and the guard never fires. Under the exact
total-real-arithmetic reading (0/0 = 0) the majors combine to 0.14910 and
the minors to 0.14805, the argmax is `"C Major"`, and the relative-minor
correction (0.14805 > 0.9·0.14910) flips the answer to `"A Minor"`. (Under
IEEE float semantics the nan-propagating scores make `max` keep the first
key and the correction comparison false, returning `"C Major"` — either
way a concrete key label, contradicting the claim.) -/
theorem C9_silent_input_returns_key :
    estimate_key [fun _ => (0:ℝ)] [] = "A Minor" ∧ "A Minor" ≠ "Unknown Key" := by
  constructor
  · rw [estimate_key, methodsScores_silent, combine_silent]
    rw [if_neg (by decide)]
    exact finalizeKey_silent
  · decide

/-- C8: whenever the combined per-key scores (a dict, so keys are distinct)
make `est` the argmax (first maximum, Python `max` semantics): if `est` ends
in `"Major"` and the relative-minor key (root 9 semitones up mod 12) is
present with score strictly above 0.9 of the winning score, `estimate_key`
returns the relative minor; if `est` does not end in `"Major"` (in
particular for every Minor key), no correction is applied. -/
theorem C8_relative_minor_correction {K : Type} [LinearOrderedField K]
    (scores : List (String × K)) (est : String) (v w : K)
    (hnd : (scores.map Prod.fst).Nodup)
    (hmax : firstMax scores = some (est, v)) :
    (strEndsWith est "Major" = true →
      scores.find? (fun p => p.1 = relativeMinorName est) = some (relativeMinorName est, w) →
      v * (9/10) < w →
      finalizeKey scores = relativeMinorName est)
    ∧ (strEndsWith est "Major" = false → finalizeKey scores = est) := by
  have hfind : scores.find? (fun p => p.1 = est) = some (est, v) :=
    find?_key_of_nodup scores est v hnd (firstMax_mem scores (est, v) hmax)
  constructor
  · intro hmaj hrel hlt
    simp only [finalizeKey, hmax, if_pos hmaj, hrel, hfind]
    exact if_pos hlt
  · intro hmaj
    simp only [finalizeKey, hmax]
    rw [if_neg (by simp [hmaj])]

set_option maxRecDepth 10000 in
/-- Witness for C8: a concrete 24-key score table where C Major wins with
100 and A Minor scores 95 > 90. -/
theorem C8_relative_minor_correction_witness :
    (strEndsWith "C Major" "Major" = true →
      List.find? (fun p => p.1 = relativeMinorName "C Major")
          [("C Major", (100:ℚ)), ("C Minor", 1), ("C# Major", 1), ("C# Minor", 1),
           ("D Major", 1), ("D Minor", 1), ("D# Major", 1), ("D# Minor", 1),
           ("E Major", 1), ("E Minor", 1), ("F Major", 1), ("F Minor", 1),
           ("F# Major", 1), ("F# Minor", 1), ("G Major", 1), ("G Minor", 1),
           ("G# Major", 1), ("G# Minor", 1), ("A Major", 1), ("A Minor", 95),
           ("A# Major", 1), ("A# Minor", 1), ("B Major", 1), ("B Minor", 1)]
        = some (relativeMinorName "C Major", 95) →
      (100:ℚ) * (9/10) < 95 →
      finalizeKey
          [("C Major", (100:ℚ)), ("C Minor", 1), ("C# Major", 1), ("C# Minor", 1),
           ("D Major", 1), ("D Minor", 1), ("D# Major", 1), ("D# Minor", 1),
           ("E Major", 1), ("E Minor", 1), ("F Major", 1), ("F Minor", 1),
           ("F# Major", 1), ("F# Minor", 1), ("G Major", 1), ("G Minor", 1),
           ("G# Major", 1), ("G# Minor", 1), ("A Major", 1), ("A Minor", 95),
           ("A# Major", 1), ("A# Minor", 1), ("B Major", 1), ("B Minor", 1)]
        = relativeMinorName "C Major")
    ∧ (strEndsWith "C Major" "Major" = false →
      finalizeKey
          [("C Major", (100:ℚ)), ("C Minor", 1), ("C# Major", 1), ("C# Minor", 1),
           ("D Major", 1), ("D Minor", 1), ("D# Major", 1), ("D# Minor", 1),
           ("E Major", 1), ("E Minor", 1), ("F Major", 1), ("F Minor", 1),
           ("F# Major", 1), ("F# Minor", 1), ("G Major", 1), ("G Minor", 1),
           ("G# Major", 1), ("G# Minor", 1), ("A Major", 1), ("A Minor", 95),
           ("A# Major", 1), ("A# Minor", 1), ("B Major", 1), ("B Minor", 1)]
        = "C Major") :=
  C8_relative_minor_correction
    [("C Major", (100:ℚ)), ("C Minor", 1), ("C# Major", 1), ("C# Minor", 1),
     ("D Major", 1), ("D Minor", 1), ("D# Major", 1), ("D# Minor", 1),
     ("E Major", 1), ("E Minor", 1), ("F Major", 1), ("F Minor", 1),
     ("F# Major", 1), ("F# Minor", 1), ("G Major", 1), ("G Minor", 1),
     ("G# Major", 1), ("G# Minor", 1), ("A Major", 1), ("A Minor", 95),
     ("A# Major", 1), ("A# Minor", 1), ("B Major", 1), ("B Minor", 1)]
    "C Major" 100 95 (by decide) (by decide)

end ChordDetector
